import Mathlib

/-!
# Turret aim controller

A shallow embedding of `src/turret_controller.cpp` (class `TurretController`).

Conventions of the embedding:

* `float`/`double` values are exact rationals (`ℚ`) and the operations on them
  are exact.  The rounding of `float` and `double` operations is modelled for
  lines 182-189 only, in `jointLimiterFloat` and `integrateFloat`.
* A division whose divisor is zero has no value in exact arithmetic: the
  functions that divide return `none` there.  Indexing a column of an empty
  Eigen matrix (column `cols() - 1` with `cols() = 0`) also gives `none`.
* `Eigen::Vector3f` is `Fin 3 → ℚ`; the `Eigen::Matrix3Xf` error buffer is the
  list of its columns, leftmost column first.
* The member fields written by `setTurretJointGoal` are the fields of `State`;
  the parameters read at start-up are the fields of `Config`.
* `Eigen::completeOrthogonalDecomposition().pseudoInverse()` is library code;
  `setTurretJointGoal` takes it as the parameter `pinv`.
-/

namespace TurretController

/-- An `Eigen::Vector3f`. -/
abbrev Vec3 := Fin 3 → ℚ

/-- An `Eigen::Matrix3Xf`, as the list of its columns (column 0 first). -/
abbrev Buffer := List Vec3

/-- A 6-vector (`Eigen::VectorXf dx(6, 1)`). -/
abbrev Vec6 := Fin 6 → ℚ

/-- Vector divided by a scalar; no value when the scalar is zero. -/
def divVec (v : Vec3) (d : ℚ) : Option Vec3 :=
  if d = 0 then none else some (fun i => v i / d)

/-- The statement `float dt = 1.0 / hz;`. -/
def timeStep (hz : ℤ) : Option ℚ :=
  if hz = 0 then none else some (1 / (hz : ℚ))

/-! ## The error buffer -/

/-- The coefficient loop behind `buffer.leftCols(k) = buffer.rightCols(k)`:
Eigen assigns in place, column after column from the left, so column `j`
receives the current content of column `j + 1`.  `copyColsLeft k j b` performs
the `k` assignments for the columns `j, j + 1, ..., j + k - 1`. -/
def copyColsLeft : Nat → Nat → Buffer → Buffer
  | 0, _, b => b
  | k + 1, j, b => copyColsLeft k (j + 1) (b.set j (b.getD (j + 1) 0))

/-- `TurretController::updateBuffer` (lines 216-223). -/
def updateBuffer (buffer : Buffer) (value : Vec3) : Option Buffer :=
  if buffer.length = 0 then none
  else
    let shifted := copyColsLeft (buffer.length - 1) 0 buffer
    some (shifted.set (buffer.length - 1) value)

/-- The divisor `dt * (buffer.cols() - 1)` of `calculateErrorDt`. -/
def errorDtDivisor (dt : ℚ) (cols : Nat) : ℚ :=
  dt * (((cols : ℤ) - 1 : ℤ) : ℚ)

/-- `TurretController::calculateErrorDt` (lines 225-234). -/
def calculateErrorDt (buffer : Buffer) (hz : ℤ) : Option Vec3 :=
  match timeStep hz with
  | none => none
  | some dt =>
    if buffer.length = 0 then none
    else
      divVec (buffer.getD (buffer.length - 1) 0 - buffer.getD 0 0)
        (errorDtDivisor dt buffer.length)

/-- `buffer.rowwise().sum()`: the sum of the columns. -/
def rowwiseSum (buffer : Buffer) : Vec3 :=
  buffer.foldl (fun acc c => acc + c) 0

/-- `TurretController::calculateErrorIntegral` (lines 236-245). -/
def calculateErrorIntegral (buffer : Buffer) (hz : ℤ) : Option Vec3 :=
  match timeStep hz with
  | none => none
  | some dt => divVec (fun i => rowwiseSum buffer i * dt) (buffer.length : ℚ)

/-! ## Controller state -/

/-- The parameters declared in `robot_init_parameters` that the control loop
reads. -/
structure Config where
  timer_hz : ℤ
  turret_simulate_joint_states : Bool
  kp : ℚ
  ki : ℚ
  kd : ℚ
  turret_name : String
  payload_aim_joint : String

/-- The member fields that `setTurretJointGoal` and `getPIDVelocity` write. -/
structure State where
  q : Vec3
  dq : Vec3
  buffer : Buffer
  Z1 : Vec3
  Y2 : Vec3
  X3 : Vec3
  t1_transform : Vec3
  t2_transform : Vec3
  t3_transform : Vec3
  td_transform : Vec3

/-- `TurretController::getPIDVelocity` (lines 201-214): returns the velocity
and the state with the updated buffer. -/
def getPIDVelocity (cfg : Config) (s : State) : Option (Vec3 × State) :=
  let error : Vec3 := s.td_transform - s.t3_transform
  match updateBuffer s.buffer error with
  | none => none
  | some buffer =>
    match calculateErrorDt buffer cfg.timer_hz with
    | none => none
    | some error_dt =>
      match calculateErrorIntegral buffer cfg.timer_hz with
      | none => none
      | some error_integral =>
        some ((cfg.kp • error) + (cfg.kd • error_dt) - (cfg.ki • error_integral),
          { s with buffer := buffer })

/-! ## Poses and the Jacobian -/

/-- The `rotation` field of a `geometry_msgs` transform. -/
structure Quaternion where
  w : ℚ
  x : ℚ
  y : ℚ
  z : ℚ

/-- The `transform` field of a `geometry_msgs::msg::TransformStamped`. -/
structure Transform where
  translation : Vec3
  rotation : Quaternion

/-- `Eigen::Quaternionf::toRotationMatrix` (Eigen's coefficient formulas; the
quaternion is not normalised by the call). -/
def toRotationMatrix (Q : Quaternion) : Matrix (Fin 3) (Fin 3) ℚ :=
  let tx := 2 * Q.x
  let ty := 2 * Q.y
  let tz := 2 * Q.z
  let twx := tx * Q.w
  let twy := ty * Q.w
  let twz := tz * Q.w
  let txx := tx * Q.x
  let txy := ty * Q.x
  let txz := tz * Q.x
  let tyy := ty * Q.y
  let tyz := tz * Q.y
  let tzz := tz * Q.z
  Matrix.of ![![1 - (tyy + tzz), txy - twz, txz + twy],
              ![txy + twz, 1 - (txx + tzz), tyz - twx],
              ![txz - twy, tyz + twx, 1 - (txx + tyy)]]

/-- The block `M.block<3, 1>(0, j)`: column `j` of a 3x3 matrix. -/
def column (M : Matrix (Fin 3) (Fin 3) ℚ) (j : Fin 3) : Vec3 :=
  fun i => M i j

/-- `a.cross(b)` for 3-vectors. -/
def cross (a b : Vec3) : Vec3 :=
  ![a 1 * b 2 - a 2 * b 1, a 2 * b 0 - a 0 * b 2, a 0 * b 1 - a 1 * b 0]

/-- Two 3-vectors stacked into a 6-vector (the comma initialiser placing one
3x1 block above another). -/
def vstack (a b : Vec3) : Vec6 :=
  ![a 0, a 1, a 2, b 0, b 1, b 2]

/-- The matrix filled at lines 173-174:
`Jacobian << Z1, Y2, Zero, Z1.cross(t3 - t1), Y2.cross(t3 - t2), X3`. -/
def Jacobian (Z1 Y2 X3 t1 t2 t3 : Vec3) : Matrix (Fin 6) (Fin 3) ℚ :=
  Matrix.of fun i j =>
    (![vstack Z1 (cross Z1 (t3 - t1)),
       vstack Y2 (cross Y2 (t3 - t2)),
       vstack 0 X3] j) i

/-- Lines 177-180: `dq = JacobianInv * dx` with `dx << Zero, v`. -/
def solveJointVelocity (pinv : Matrix (Fin 6) (Fin 3) ℚ → Matrix (Fin 3) (Fin 6) ℚ)
    (J : Matrix (Fin 6) (Fin 3) ℚ) (v : Vec3) : Vec3 :=
  Matrix.mulVec (pinv J) (vstack 0 v)

/-! ## Joint limiter and integration -/

/-- The hard-coded constant `0.05` of lines 183 and 186. -/
def aimFloor : ℚ := 5 / 100

/-- Lines 182-187: the new `dq` after the check on `q(2) + dq(2)`. -/
def jointLimiter (q dq : Vec3) : Vec3 :=
  if q 2 + dq 2 < aimFloor then Function.update dq 2 (aimFloor - q 2) else dq

/-- Line 189: `q += dq / timer_hz`. -/
def integrate (q dq : Vec3) (hz : ℤ) : Option Vec3 :=
  match divVec dq (hz : ℚ) with
  | none => none
  | some step => some (q + step)

/-! ## Outputs -/

/-- What one tick sends out: the log line of the `catch` block and the three
kinds of published message. -/
inductive Output where
  | log : Output
  | jointGroupCommand (name : String) (cmd : List ℚ) : Output
  | turretJointStates (name : List String) (position : List ℚ) : Output
  | payloadJointStates (name : List String) (position : List ℚ) : Output

/-- `TurretController::publishTurretJointGoal` (lines 247-256). -/
def publishTurretJointGoal (cfg : Config) (s : State) : List Output :=
  [Output.jointGroupCommand cfg.turret_name [s.dq 0, s.dq 1]]

/-- `TurretController::publishSimJointStates` (lines 258-284). -/
def publishSimJointStates (cfg : Config) (s : State) : List Output :=
  (if cfg.turret_simulate_joint_states then
    [Output.turretJointStates ["pan", "tilt"] [s.q 0, s.q 1]]
  else []) ++
  [Output.payloadJointStates [cfg.payload_aim_joint] [s.q 2]]

/-! ## One tick of the control loop -/

/-- Lines 150-165: the axes and translations stored from the four transforms. -/
def storePoses (t1 t2 t3 td : Transform) (s : State) : State :=
  { s with
    Z1 := column (toRotationMatrix t1.rotation) 2
    Y2 := column (toRotationMatrix t2.rotation) 1
    X3 := column (toRotationMatrix t3.rotation) 0
    t1_transform := t1.translation
    t2_transform := t2.translation
    t3_transform := t3.translation
    td_transform := td.translation }

/-- The `try` block of `setTurretJointGoal` after the four lookups returned
(lines 150-191). -/
def ikStep (pinv : Matrix (Fin 6) (Fin 3) ℚ → Matrix (Fin 3) (Fin 6) ℚ)
    (cfg : Config) (t1 t2 t3 td : Transform) (s : State) :
    Option (State × List Output) :=
  let s1 := storePoses t1 t2 t3 td s
  let J := Jacobian s1.Z1 s1.Y2 s1.X3 s1.t1_transform s1.t2_transform s1.t3_transform
  match getPIDVelocity cfg s1 with
  | none => none
  | some (v, s2) =>
    let s3 := { s2 with dq := solveJointVelocity pinv J v }
    let s4 := { s3 with dq := jointLimiter s3.q s3.dq }
    match integrate s4.q s4.dq cfg.timer_hz with
    | none => none
    | some q =>
      let s5 := { s4 with q := q }
      some (s5, publishTurretJointGoal cfg s5)

/-- `TurretController::setTurretJointGoal` (lines 124-199).  Each of the four
`lookupTransform` calls either returns a transform (`some`) or throws
`tf2::TransformException` (`none`). -/
def setTurretJointGoal (pinv : Matrix (Fin 6) (Fin 3) ℚ → Matrix (Fin 3) (Fin 6) ℚ)
    (cfg : Config) (l1 l2 l3 ld : Option Transform) (s : State) :
    Option (State × List Output) :=
  match l1, l2, l3, ld with
  | some t1, some t2, some t3, some td =>
    match ikStep pinv cfg t1 t2 t3 td s with
    | none => none
    | some (s1, out) => some (s1, out ++ publishSimJointStates cfg s1)
  | _, _, _, _ => some (s, Output.log :: publishSimJointStates cfg s)

/-- The state left by the constructor (`robot_init_parameters`, lines 35-38 and
61-63): a zero buffer of `buffer_n` columns, `q = (0, 0, 0.45)`, `dq = 0`.  The
axes and translations are not set by the constructor; every tick writes them
before it reads them, and they start at zero here. -/
def initialState (buffer_n : Nat) : State :=
  { q := ![0, 0, 45 / 100]
    dq := 0
    buffer := List.replicate buffer_n 0
    Z1 := 0
    Y2 := 0
    X3 := 0
    t1_transform := 0
    t2_transform := 0
    t3_transform := 0
    td_transform := 0 }

/-- A sequence of calls of `updateBuffer`, one for each value in turn. -/
def pushAll : Buffer → List Vec3 → Option Buffer
  | b, [] => some b
  | b, v :: vs =>
    match updateBuffer b v with
    | none => none
    | some b1 => pushAll b1 vs

/-! ## The buffer operations in the words of the specification -/

/-- Specification 4.1, `push`: drop the leftmost column and append `value` on
the right. -/
def specPush (buffer : Buffer) (value : Vec3) : Buffer :=
  buffer.tail ++ [value]

/-- Specification 4.1, `derivative`: `(newest - oldest) / (dt * (N - 1))`. -/
def specDerivative (buffer : Buffer) (dt : ℚ) : Vec3 :=
  fun i => (buffer.getLastD 0 i - buffer.headD 0 i) / (dt * ((buffer.length : ℚ) - 1))

/-- Specification 4.1, `integral`: `(sum of all columns) * dt / N`. -/
def specIntegral (buffer : Buffer) (dt : ℚ) : Vec3 :=
  fun i => (buffer.sum i) * dt / (buffer.length : ℚ)

/-- The four Moore-Penrose conditions: `P` is the pseudoinverse of `J`.  This is
the contract of the library routine passed as `pinv`. -/
def IsPseudoInverse (J : Matrix (Fin 6) (Fin 3) ℚ) (P : Matrix (Fin 3) (Fin 6) ℚ) : Prop :=
  J * P * J = J ∧ P * J * P = P ∧ (J * P).transpose = J * P ∧ (P * J).transpose = P * J

/-- Full column rank of the 6x3 Jacobian. -/
def FullColumnRank (J : Matrix (Fin 6) (Fin 3) ℚ) : Prop :=
  J.rank = 3

/-- The pseudoinverse of a matrix with full column rank in closed form,
`(JᵀJ)⁻¹ Jᵀ`, with the 3x3 inverse written as adjugate over determinant. -/
def leftPseudoInverse (J : Matrix (Fin 6) (Fin 3) ℚ) : Matrix (Fin 3) (Fin 6) ℚ :=
  ((J.transpose * J).det)⁻¹ • ((J.transpose * J).adjugate * J.transpose)

/-- The squared Euclidean norm of a 6-vector. -/
def normSq (x : Vec6) : ℚ :=
  Matrix.dotProduct x x

/-! ## Concrete inputs -/

/-- The default parameter values of `robot_init_parameters`. -/
def defaultConfig : Config :=
  { timer_hz := 10
    turret_simulate_joint_states := true
    kp := 5
    ki := 1
    kd := 0
    turret_name := ""
    payload_aim_joint := "" }

/-- A transform with zero translation and the identity rotation. -/
def identityTransform : Transform :=
  { translation := 0
    rotation := { w := 1, x := 0, y := 0, z := 0 } }

/-- A state whose two buffer columns and whose current error `td - t3` all equal
`(1, 2, 3)`. -/
def constantErrorState : State :=
  { initialState 0 with
    buffer := [![1, 2, 3], ![1, 2, 3]]
    td_transform := ![1, 2, 3] }

/-- The Jacobian of the specification's worked example: `Z1 = (0,0,1)`,
`Y2 = (0,1,0)`, `X3 = (1,0,0)`, `t1 = 0`, `t2 = (0,0,0.2)`, `t3 = (0.3,0,0.5)`. -/
def exampleJacobian : Matrix (Fin 6) (Fin 3) ℚ :=
  Jacobian ![0, 0, 1] ![0, 1, 0] ![1, 0, 0] ![0, 0, 0] ![0, 0, 2 / 10] ![3 / 10, 0, 5 / 10]

/-- A target one unit behind the aim frame along the aim axis, identity
rotation. -/
def targetBehindTransform : Transform :=
  { translation := ![-1, 0, 0]
    rotation := { w := 1, x := 0, y := 0, z := 0 } }

/-! ## Reading a tick -/

/-- The Jacobian of lines 173-174 on the fields stored in a state. -/
def stateJacobian (s : State) : Matrix (Fin 6) (Fin 3) ℚ :=
  Jacobian s.Z1 s.Y2 s.X3 s.t1_transform s.t2_transform s.t3_transform

/-- The `cmd` arrays of the joint-group commands among the outputs, in order. -/
def commandsOf (out : List Output) : List (List ℚ) :=
  out.filterMap fun o =>
    match o with
    | Output.jointGroupCommand _ cmd => some cmd
    | _ => none

/-- The `position` arrays of the pan/tilt joint-state messages, in order. -/
def panTiltStatesOf (out : List Output) : List (List ℚ) :=
  out.filterMap fun o =>
    match o with
    | Output.turretJointStates _ position => some position
    | _ => none

/-- The `position` arrays of the aim-joint state messages, in order. -/
def aimJointStatesOf (out : List Output) : List (List ℚ) :=
  out.filterMap fun o =>
    match o with
    | Output.payloadJointStates _ position => some position
    | _ => none

/-- The four lookup results of one tick. -/
structure Lookups where
  l1 : Option Transform
  l2 : Option Transform
  l3 : Option Transform
  ld : Option Transform

/-- A run of ticks, one for each entry of the list, from a given state. -/
def runTicks (pinv : Matrix (Fin 6) (Fin 3) ℚ → Matrix (Fin 3) (Fin 6) ℚ)
    (cfg : Config) : List Lookups → State → Option State
  | [], s => some s
  | l :: ls, s =>
    match setTurretJointGoal pinv cfg l.l1 l.l2 l.l3 l.ld s with
    | none => none
    | some (s1, _) => runTicks pinv cfg ls s1

/-! ## The timer -/

/-- The cast `static_cast<int>(x)`: truncation towards zero. -/
def truncToInt (x : ℚ) : ℤ :=
  if 0 ≤ x then ⌊x⌋ else ⌈x⌉

/-- `TurretController::robot_init_timers` (lines 85-90): the number of
milliseconds handed to the wall timer, `static_cast<int>((1.0 / timer_hz) * 1000)`. -/
def timerPeriodMs (timer_hz : ℤ) : Option ℤ :=
  if timer_hz = 0 then none else some (truncToInt ((1 / (timer_hz : ℚ)) * 1000))

/-! ## Binary floating point -/

/-- Rounding of a rational to the nearest integer, a tie going to the even
integer. -/
def roundNearestEven (y : ℚ) : ℤ :=
  if y - ⌊y⌋ < 1 / 2 then ⌊y⌋
  else if 1 / 2 < y - ⌊y⌋ then ⌊y⌋ + 1
  else if ⌊y⌋ % 2 = 0 then ⌊y⌋ else ⌊y⌋ + 1

/-- Rounding to a binary floating-point number with `p` significand bits, to
nearest, ties to even (the IEEE 754 default).  The exponent range is not bounded:
overflow and subnormal numbers are not modelled. -/
def roundToBits (p : ℕ) (x : ℚ) : ℚ :=
  if x = 0 then 0
  else (roundNearestEven (x / 2 ^ (Int.log 2 |x| - ((p : ℤ) - 1))) : ℚ)
    * 2 ^ (Int.log 2 |x| - ((p : ℤ) - 1))

/-- Rounding to `float` (binary32, 24 significand bits). -/
def toFloat (x : ℚ) : ℚ :=
  roundToBits 24 x

/-- Rounding to `double` (binary64, 53 significand bits). -/
def toDouble (x : ℚ) : ℚ :=
  roundToBits 53 x

/-- Lines 182-187 in the arithmetic of the code.  `q` and `dq` hold `float`
values; `q.coeff(2) + dq.coeff(2)` is a `float` sum, compared with the `double`
literal `0.05`; `0.05 - q.coeff(2)` is a `double` difference, rounded to `float`
when it is stored in `dq(2)`.  Converting a `float` to `double` is exact and is
not written. -/
def jointLimiterFloat (q dq : Vec3) : Vec3 :=
  if toFloat (q 2 + dq 2) < toDouble (5 / 100) then
    Function.update dq 2 (toFloat (toDouble (toDouble (5 / 100) - q 2)))
  else dq

/-- Line 189 in the arithmetic of the code: `timer_hz` converted to `float`, then
a `float` quotient and a `float` sum in each component. -/
def integrateFloat (q dq : Vec3) (hz : ℤ) : Option Vec3 :=
  if hz = 0 then none
  else some (fun i => toFloat (q i + toFloat (dq i / toFloat (hz : ℚ))))

/-! ## Lemmas on the error buffer -/

theorem length_copyColsLeft (k j : Nat) (b : Buffer) :
    (copyColsLeft k j b).length = b.length := by
  induction k generalizing j b with
  | zero => rfl
  | succ k ih => simp [copyColsLeft, ih]

theorem getElem?_copyColsLeft (k j : Nat) (b : Buffer) (h : j + k < b.length) (i : Nat) :
    (copyColsLeft k j b)[i]? = if j ≤ i ∧ i < j + k then b[i + 1]? else b[i]? := by
  induction k generalizing j b with
  | zero =>
    have h1 : ¬ (j ≤ i ∧ i < j + 0) := by omega
    rw [copyColsLeft, if_neg h1]
  | succ k ih =>
    have hj1 : j + 1 < b.length := by omega
    have hlen : j + 1 + k < (b.set j (b.getD (j + 1) 0)).length := by
      simp; omega
    rw [copyColsLeft, ih (j + 1) _ hlen]
    by_cases h1 : j + 1 ≤ i ∧ i < j + 1 + k
    · have hne : j ≠ i + 1 := by omega
      have h2 : j ≤ i ∧ i < j + (k + 1) := by omega
      rw [if_pos h1, if_pos h2, List.getElem?_set_ne hne]
    · rw [if_neg h1]
      by_cases hij : i = j
      · subst hij
        have h2 : i ≤ i ∧ i < i + (k + 1) := by omega
        have hi : i < b.length := by omega
        rw [if_pos h2, List.getElem?_set_self hi, List.getD_eq_getElem?_getD,
          List.getElem?_eq_getElem hj1]
        rfl
      · have h2 : ¬ (j ≤ i ∧ i < j + (k + 1)) := by omega
        have hne : j ≠ i := fun e => hij e.symm
        rw [if_neg h2, List.getElem?_set_ne hne]

theorem copyColsLeft_eq (b : Buffer) (h : 1 ≤ b.length) :
    copyColsLeft (b.length - 1) 0 b = b.tail ++ [b.getD (b.length - 1) 0] := by
  apply List.ext_getElem?
  intro i
  rw [getElem?_copyColsLeft _ _ _ (by omega)]
  by_cases hi : i < b.length - 1
  · have h1 : 0 ≤ i ∧ i < 0 + (b.length - 1) := by omega
    rw [if_pos h1, List.getElem?_append_left (by simp; omega), List.getElem?_tail]
  · have h1 : ¬ (0 ≤ i ∧ i < 0 + (b.length - 1)) := by omega
    rw [if_neg h1, List.getElem?_append_right (by simp; omega)]
    by_cases hi2 : i = b.length - 1
    · subst hi2
      have hlt : b.length - 1 < b.length := by omega
      simp [List.getElem?_eq_getElem hlt]
    · have hge : b.length ≤ i := by omega
      rw [List.getElem?_eq_none hge]
      have : 0 < i - b.tail.length := by simp; omega
      rw [List.getElem?_eq_none]
      simp; omega

theorem updateBuffer_eq_specPush (b : Buffer) (v : Vec3) (h : 1 ≤ b.length) :
    updateBuffer b v = some (specPush b v) := by
  have h0 : ¬ b.length = 0 := by omega
  simp only [updateBuffer, if_neg h0, specPush, copyColsLeft_eq b h]
  congr 1
  apply List.ext_getElem?
  intro i
  have hl : b.tail.length = b.length - 1 := by simp
  by_cases hi : i = b.length - 1
  · subst hi
    rw [List.getElem?_set_self (by simp),
      List.getElem?_append_right (by simp)]
    simp
  · rw [List.getElem?_set_ne (fun e => hi e.symm)]
    by_cases hlt : i < b.length - 1
    · rw [List.getElem?_append_left (by omega), List.getElem?_append_left (by omega)]
    · rw [List.getElem?_eq_none (by simp; omega), List.getElem?_eq_none (by simp; omega)]

theorem length_specPush (b : Buffer) (v : Vec3) (h : 1 ≤ b.length) :
    (specPush b v).length = b.length := by
  simp [specPush]
  omega

theorem pushAll_length (vs : List Vec3) (b : Buffer) (h : 1 ≤ b.length) :
    ∃ b1, pushAll b vs = some b1 ∧ b1.length = b.length := by
  induction vs generalizing b with
  | nil => exact ⟨b, rfl, rfl⟩
  | cons v vs ih =>
    have hl := length_specPush b v h
    obtain ⟨b1, h1, h2⟩ := ih (specPush b v) (by omega)
    refine ⟨b1, ?_, by omega⟩
    simp only [pushAll, updateBuffer_eq_specPush b v h, h1]

/-! ## Lemmas on the derivative and the integral -/

theorem timeStep_of_pos (hz : ℤ) (h : 1 ≤ hz) : timeStep hz = some (1 / (hz : ℚ)) := by
  have h0 : ¬ hz = 0 := by omega
  simp [timeStep, h0]

theorem foldl_add_eq (b : Buffer) (a : Vec3) :
    b.foldl (fun acc c => acc + c) a = a + b.sum := by
  induction b generalizing a with
  | nil => simp
  | cons x xs ih => simp [List.foldl_cons, ih, add_assoc]

theorem rowwiseSum_eq_sum (b : Buffer) : rowwiseSum b = b.sum := by
  simp [rowwiseSum, foldl_add_eq]

theorem calculateErrorIntegral_eq (b : Buffer) (hz : ℤ) (hN : 1 ≤ b.length) (hhz : 1 ≤ hz) :
    calculateErrorIntegral b hz = some (specIntegral b (1 / (hz : ℚ))) := by
  have hlen : ¬ ((b.length : ℚ) = 0) := by
    have : (0 : ℚ) < (b.length : ℚ) := by exact_mod_cast hN
    exact ne_of_gt this
  simp only [calculateErrorIntegral, timeStep_of_pos hz hhz, divVec, if_neg hlen,
    rowwiseSum_eq_sum]
  rfl

theorem getD_last_eq_getLastD (b : Buffer) :
    b.getD (b.length - 1) 0 = b.getLastD 0 := by
  rw [List.getD_eq_getElem?_getD, List.getLastD_eq_getLast?, List.getLast?_eq_getElem?]

theorem getD_zero_eq_headD (b : Buffer) : b.getD 0 0 = b.headD 0 := by
  rw [List.getD_eq_getElem?_getD, List.headD_eq_head?_getD, List.head?_eq_getElem?]

theorem errorDtDivisor_ne_zero (hz : ℤ) (n : Nat) (hN : 2 ≤ n) (hhz : 1 ≤ hz) :
    errorDtDivisor (1 / (hz : ℚ)) n ≠ 0 := by
  have h1 : (0 : ℚ) < (hz : ℚ) := by exact_mod_cast hhz
  have h2 : (0 : ℚ) < (((n : ℤ) - 1 : ℤ) : ℚ) := by
    have : (0 : ℤ) < (n : ℤ) - 1 := by omega
    exact_mod_cast this
  unfold errorDtDivisor
  positivity

theorem calculateErrorDt_eq (b : Buffer) (hz : ℤ) (hN : 2 ≤ b.length) (hhz : 1 ≤ hz) :
    calculateErrorDt b hz = some (specDerivative b (1 / (hz : ℚ))) := by
  have h0 : ¬ b.length = 0 := by omega
  have hd := errorDtDivisor_ne_zero hz b.length hN hhz
  simp only [calculateErrorDt, timeStep_of_pos hz hhz, if_neg h0, divVec, if_neg hd,
    getD_last_eq_getLastD, getD_zero_eq_headD, specDerivative]
  congr 1
  funext i
  simp [errorDtDivisor, specDerivative]

theorem getPIDVelocity_eq (cfg : Config) (s : State)
    (hN : 2 ≤ s.buffer.length) (hhz : 1 ≤ cfg.timer_hz) :
    getPIDVelocity cfg s
      = some (cfg.kp • (s.td_transform - s.t3_transform)
            + cfg.kd • specDerivative (specPush s.buffer (s.td_transform - s.t3_transform))
                (1 / (cfg.timer_hz : ℚ))
            - cfg.ki • specIntegral (specPush s.buffer (s.td_transform - s.t3_transform))
                (1 / (cfg.timer_hz : ℚ)),
          { s with buffer := specPush s.buffer (s.td_transform - s.t3_transform) }) := by
  have h1 : 1 ≤ s.buffer.length := by omega
  have hl := length_specPush s.buffer (s.td_transform - s.t3_transform) h1
  have h2 : 2 ≤ (specPush s.buffer (s.td_transform - s.t3_transform)).length := by omega
  have h3 : 1 ≤ (specPush s.buffer (s.td_transform - s.t3_transform)).length := by omega
  simp only [getPIDVelocity, updateBuffer_eq_specPush _ _ h1,
    calculateErrorDt_eq _ _ h2 hhz, calculateErrorIntegral_eq _ _ h3 hhz]

theorem specIntegral_const (b : Buffer) (c : Vec3) (dt : ℚ) (hN : 1 ≤ b.length)
    (hc : ∀ x ∈ b, x = c) : specIntegral b dt = fun i => c i * dt := by
  have hrep : b = List.replicate b.length c := List.eq_replicate_iff.mpr ⟨rfl, hc⟩
  have hlen : ((b.length : ℚ)) ≠ 0 := by
    have : (0 : ℚ) < (b.length : ℚ) := by exact_mod_cast hN
    exact ne_of_gt this
  funext i
  have hsum : b.sum i = (b.length : ℚ) * c i := by
    rw [hrep, List.sum_replicate]
    simp
  simp only [specIntegral, hsum]
  field_simp
  ring

theorem specDerivative_const (b : Buffer) (c : Vec3) (dt : ℚ) (hN : 1 ≤ b.length)
    (hc : ∀ x ∈ b, x = c) : specDerivative b dt = 0 := by
  have hlast : b.getLastD 0 = c := by
    have hlt : b.length - 1 < b.length := by omega
    rw [List.getLastD_eq_getLast?, List.getLast?_eq_getElem?, List.getElem?_eq_getElem hlt]
    exact hc _ (List.getElem_mem hlt)
  have hhead : b.headD 0 = c := by
    have hlt : 0 < b.length := by omega
    rw [List.headD_eq_head?_getD, List.head?_eq_getElem?, List.getElem?_eq_getElem hlt]
    exact hc _ (List.getElem_mem hlt)
  funext i
  simp only [specDerivative, hlast, hhead, sub_self, zero_div, Pi.zero_apply]

theorem specPush_const (b : Buffer) (c : Vec3) (hc : ∀ x ∈ b, x = c) :
    ∀ x ∈ specPush b c, x = c := by
  intro x hx
  rcases List.mem_append.mp hx with h | h
  · exact hc x (List.mem_of_mem_tail h)
  · simpa using h

theorem vec6_val_five {α : Type} (a b c d e f : α) :
    (![a, b, c, d, e, f] : Fin 6 → α) 5 = f := rfl

/-! ## Lemmas on the pseudoinverse -/

theorem pinv_normal_matrix {J : Matrix (Fin 6) (Fin 3) ℚ} {P : Matrix (Fin 3) (Fin 6) ℚ}
    (h : IsPseudoInverse J P) : J.transpose * J * P = J.transpose := by
  obtain ⟨h1, _, h3, _⟩ := h
  calc J.transpose * J * P = J.transpose * (J * P) := Matrix.mul_assoc _ _ _
    _ = J.transpose * (J * P).transpose := by rw [h3]
    _ = (J * P * J).transpose := by rw [Matrix.transpose_mul (J * P) J]
    _ = J.transpose := by rw [h1]

theorem normSq_add (r w : Vec6) :
    normSq (r + w) = normSq r + 2 * Matrix.dotProduct r w + normSq w := by
  simp only [normSq, Matrix.add_dotProduct, Matrix.dotProduct_add, Matrix.dotProduct_comm w r]
  ring

theorem normSq_nonneg (w : Vec6) : 0 ≤ normSq w := by
  unfold normSq Matrix.dotProduct
  exact Finset.sum_nonneg (fun i _ => mul_self_nonneg (w i))

theorem isUnit_gram_of_fullColumnRank {J : Matrix (Fin 6) (Fin 3) ℚ}
    (h : FullColumnRank J) : IsUnit (J.transpose * J) := by
  have hr : (J.transpose * J).rank = 3 := by
    rw [Matrix.rank_transpose_mul_self]
    exact h
  rw [← Matrix.mulVec_surjective_iff_isUnit]
  have htop : LinearMap.range (J.transpose * J).mulVecLin = ⊤ := by
    apply Submodule.eq_top_of_finrank_eq
    rw [Module.finrank_fin_fun]
    exact hr
  intro y
  have hy : y ∈ LinearMap.range (J.transpose * J).mulVecLin := by
    rw [htop]
    trivial
  obtain ⟨x, hx⟩ := hy
  exact ⟨x, hx⟩

theorem fullColumnRank_of_det_ne_zero {J : Matrix (Fin 6) (Fin 3) ℚ}
    (h : (J.transpose * J).det ≠ 0) : FullColumnRank J := by
  have hu : IsUnit (J.transpose * J) := by
    rw [Matrix.isUnit_iff_isUnit_det]
    exact isUnit_iff_ne_zero.mpr h
  have hr := Matrix.rank_of_isUnit _ hu
  rw [Matrix.rank_transpose_mul_self] at hr
  simpa [FullColumnRank] using hr

theorem leftPseudoInverse_mul {J : Matrix (Fin 6) (Fin 3) ℚ}
    (h : (J.transpose * J).det ≠ 0) : leftPseudoInverse J * J = 1 := by
  unfold leftPseudoInverse
  rw [Matrix.smul_mul, Matrix.mul_assoc, Matrix.adjugate_mul, smul_smul, inv_mul_cancel₀ h,
    one_smul]

theorem leftPseudoInverse_isPseudoInverse {J : Matrix (Fin 6) (Fin 3) ℚ}
    (h : (J.transpose * J).det ≠ 0) : IsPseudoInverse J (leftPseudoInverse J) := by
  have hPJ := leftPseudoInverse_mul h
  refine ⟨?_, ?_, ?_, ?_⟩
  · rw [Matrix.mul_assoc, hPJ, Matrix.mul_one]
  · rw [hPJ, Matrix.one_mul]
  · have hsymm : (J.transpose * J).transpose = J.transpose * J := by
      rw [Matrix.transpose_mul, Matrix.transpose_transpose]
    unfold leftPseudoInverse
    rw [Matrix.mul_smul, Matrix.transpose_smul, Matrix.transpose_mul, Matrix.transpose_mul,
      Matrix.transpose_transpose, Matrix.adjugate_transpose, hsymm, Matrix.mul_assoc]
  · rw [hPJ, Matrix.transpose_one]

theorem exampleJacobian_gram_det : (exampleJacobian.transpose * exampleJacobian).det ≠ 0 := by
  have hG : exampleJacobian.transpose * exampleJacobian
      = Matrix.of ![![109 / 100, 0, 0], ![0, 118 / 100, 3 / 10], ![0, 3 / 10, 1]] := by
    ext i j
    fin_cases i <;> fin_cases j <;>
      simp [exampleJacobian, Jacobian, vstack, cross, vec6_val_five, Matrix.mul_apply,
        Fin.sum_univ_succ, Matrix.vecHead, Matrix.vecTail] <;> norm_num
  rw [hG, Matrix.det_fin_three]
  simp
  norm_num

/-! ## Lemmas on rounding -/

theorem log_two_eq (x : ℚ) (e : ℤ) (hx : 0 < x) (h1 : (2 : ℚ) ^ e ≤ x)
    (h2 : x < (2 : ℚ) ^ (e + 1)) : Int.log 2 x = e := by
  have hb : 1 < 2 := by norm_num
  have h3 : e ≤ Int.log 2 x := (Int.zpow_le_iff_le_log hb hx).mp (by exact_mod_cast h1)
  have h4 : Int.log 2 x < e + 1 := (Int.lt_zpow_iff_log_lt hb hx).mp (by exact_mod_cast h2)
  omega

theorem roundToBits_eq (p : ℕ) (x : ℚ) (e : ℤ) (h1 : (2 : ℚ) ^ e ≤ |x|)
    (h2 : |x| < (2 : ℚ) ^ (e + 1)) :
    roundToBits p x
      = (roundNearestEven (x / 2 ^ (e - ((p : ℤ) - 1))) : ℚ) * 2 ^ (e - ((p : ℤ) - 1)) := by
  have hpos : 0 < |x| := lt_of_lt_of_le (by positivity) h1
  have hx : x ≠ 0 := abs_pos.mp hpos
  rw [roundToBits, if_neg hx, log_two_eq |x| e hpos h1 h2]

theorem roundNearestEven_down (y : ℚ) (n : ℤ) (h1 : (n : ℚ) ≤ y) (h2 : y - n < 1 / 2) :
    roundNearestEven y = n := by
  have hf : ⌊y⌋ = n := by
    rw [Int.floor_eq_iff]
    constructor
    · exact h1
    · linarith
  rw [roundNearestEven, hf, if_pos h2]

theorem roundNearestEven_up (y : ℚ) (n : ℤ) (h1 : 1 / 2 < y - n) (h2 : y < n + 1) :
    roundNearestEven y = n + 1 := by
  have hf : ⌊y⌋ = n := by
    rw [Int.floor_eq_iff]
    constructor
    · linarith
    · exact h2
  have h3 : ¬ (y - n < 1 / 2) := by linarith
  rw [roundNearestEven, hf, if_neg h3, if_pos h1]

theorem roundNearestEven_tie_even (y : ℚ) (n : ℤ) (h : y - n = 1 / 2) (he : n % 2 = 0) :
    roundNearestEven y = n := by
  have hf : ⌊y⌋ = n := by
    rw [Int.floor_eq_iff]
    constructor <;> linarith
  have h3 : ¬ (y - n < 1 / 2) := by linarith
  have h4 : ¬ (1 / 2 < y - n) := by linarith
  rw [roundNearestEven, hf, if_neg h3, if_neg h4, if_pos he]

theorem toDouble_floor_literal :
    toDouble (5 / 100) = 3602879701896397 / 72057594037927936 := by
  rw [toDouble, roundToBits_eq 53 _ (-5) (by rw [abs_of_pos (by norm_num)]; norm_num)
    (by rw [abs_of_pos (by norm_num)]; norm_num),
    roundNearestEven_up _ 7205759403792793 (by norm_num) (by norm_num)]
  norm_num

theorem toDouble_floor_minus_quarter :
    toDouble ((3602879701896397 : ℚ) / 72057594037927936 - 1 / 4)
      = -3602879701896397 / 18014398509481984 := by
  rw [toDouble, roundToBits_eq 53 _ (-3) (by rw [abs_of_neg (by norm_num)]; norm_num)
    (by rw [abs_of_neg (by norm_num)]; norm_num),
    roundNearestEven_tie_even _ (-7205759403792794) (by norm_num) (by decide)]
  norm_num

theorem toFloat_minus_fifth :
    toFloat ((-3602879701896397 : ℚ) / 18014398509481984) = -13421773 / 67108864 := by
  rw [toFloat, roundToBits_eq 24 _ (-3) (by rw [abs_of_neg (by norm_num)]; norm_num)
    (by rw [abs_of_neg (by norm_num)]; norm_num),
    roundNearestEven_down _ (-13421773) (by norm_num) (by norm_num)]
  norm_num

theorem toFloat_minus_three_quarters : toFloat (-3 / 4) = -3 / 4 := by
  rw [toFloat, roundToBits_eq 24 _ (-1) (by rw [abs_of_neg (by norm_num)]; norm_num)
    (by rw [abs_of_neg (by norm_num)]; norm_num),
    roundNearestEven_down _ (-12582912) (by norm_num) (by norm_num)]
  norm_num

theorem toFloat_quarter : toFloat (1 / 4) = 1 / 4 := by
  rw [toFloat, roundToBits_eq 24 _ (-2) (by rw [abs_of_pos (by norm_num)]; norm_num)
    (by rw [abs_of_pos (by norm_num)]; norm_num),
    roundNearestEven_down _ 8388608 (by norm_num) (by norm_num)]
  norm_num

theorem toFloat_minus_one : toFloat (-1) = -1 := by
  rw [toFloat, roundToBits_eq 24 _ 0 (by rw [abs_of_neg (by norm_num)]; norm_num)
    (by rw [abs_of_neg (by norm_num)]; norm_num),
    roundNearestEven_down _ (-8388608) (by norm_num) (by norm_num)]
  norm_num

theorem toFloat_one : toFloat 1 = 1 := by
  rw [toFloat, roundToBits_eq 24 _ 0 (by rw [abs_of_pos (by norm_num)]; norm_num)
    (by rw [abs_of_pos (by norm_num)]; norm_num),
    roundNearestEven_down _ 8388608 (by norm_num) (by norm_num)]
  norm_num

theorem toFloat_zero : toFloat 0 = 0 := by
  simp [toFloat, roundToBits]

theorem toFloat_stored_velocity :
    toFloat ((-13421773 : ℚ) / 67108864) = -13421773 / 67108864 := by
  rw [toFloat, roundToBits_eq 24 _ (-3) (by rw [abs_of_neg (by norm_num)]; norm_num)
    (by rw [abs_of_neg (by norm_num)]; norm_num),
    roundNearestEven_down _ (-13421773) (by norm_num) (by norm_num)]
  norm_num

theorem toFloat_below_floor :
    toFloat ((3355443 : ℚ) / 67108864) = 3355443 / 67108864 := by
  rw [toFloat, roundToBits_eq 24 _ (-5) (by rw [abs_of_pos (by norm_num)]; norm_num)
    (by rw [abs_of_pos (by norm_num)]; norm_num),
    roundNearestEven_down _ 13421772 (by norm_num) (by norm_num)]
  norm_num

theorem jointLimiterFloat_quarter :
    jointLimiterFloat ![0, 0, 1 / 4] ![0, 0, -1] = ![0, 0, -13421773 / 67108864] := by
  have hsum : (![0, 0, 1 / 4] : Vec3) 2 + (![0, 0, -1] : Vec3) 2 = -3 / 4 := by
    simp
    norm_num
  have hq : (![0, 0, 1 / 4] : Vec3) 2 = 1 / 4 := by simp
  have hlt : toFloat ((![0, 0, 1 / 4] : Vec3) 2 + (![0, 0, -1] : Vec3) 2)
      < toDouble (5 / 100) := by
    rw [hsum, toFloat_minus_three_quarters, toDouble_floor_literal]
    norm_num
  unfold jointLimiterFloat
  rw [if_pos hlt, hq, toDouble_floor_literal, toDouble_floor_minus_quarter,
    toFloat_minus_fifth]
  funext i
  fin_cases i <;> simp [Function.update]

theorem integrateFloat_quarter :
    integrateFloat ![0, 0, 1 / 4] ![0, 0, -13421773 / 67108864] 1
      = some ![0, 0, 3355443 / 67108864] := by
  have h1 : ¬ ((1 : ℤ) = 0) := by decide
  simp only [integrateFloat, if_neg h1, Int.cast_one, toFloat_one, div_one,
    Option.some.injEq]
  funext i
  fin_cases i
  · simp [toFloat_zero]
  · simp [toFloat_zero]
  · have h2 : (1 / 4 : ℚ) + -13421773 / 67108864 = 3355443 / 67108864 := by norm_num
    show toFloat ((1 / 4 : ℚ) + toFloat ((-13421773 : ℚ) / 67108864))
      = 3355443 / 67108864
    rw [toFloat_stored_velocity, h2, toFloat_below_floor]

/-! ## Settled claims -/

/-- C1: when at least one of the four pose lookups fails, the tick returns with
the controller state exactly as it was (so `q`, `dq` and the error buffer are
unchanged and no sample was pushed); it only logs and publishes the joint
states. -/
theorem lookup_failure_keeps_state
    (pinv : Matrix (Fin 6) (Fin 3) ℚ → Matrix (Fin 3) (Fin 6) ℚ) (cfg : Config)
    (l1 l2 l3 ld : Option Transform) (s : State)
    (h : l1 = none ∨ l2 = none ∨ l3 = none ∨ ld = none) :
    ∃ out, setTurretJointGoal pinv cfg l1 l2 l3 ld s = some (s, out) ∧
      out = Output.log :: publishSimJointStates cfg s := by
  refine ⟨_, ?_, rfl⟩
  rcases l1 with _ | t1 <;> rcases l2 with _ | t2 <;> rcases l3 with _ | t3 <;>
    rcases ld with _ | td <;> simp_all [setTurretJointGoal]

theorem lookup_failure_keeps_state_witness :
    ((some identityTransform = none ∨ some identityTransform = none ∨
        (none : Option Transform) = none ∨ some identityTransform = none)) ∧
    ∃ out, setTurretJointGoal leftPseudoInverse defaultConfig (some identityTransform)
        (some identityTransform) none (some identityTransform) (initialState 10)
          = some (initialState 10, out) ∧
      out = Output.log :: publishSimJointStates defaultConfig (initialState 10) :=
  ⟨Or.inr (Or.inr (Or.inl rfl)),
    lookup_failure_keeps_state leftPseudoInverse defaultConfig (some identityTransform)
      (some identityTransform) none (some identityTransform) (initialState 10)
      (Or.inr (Or.inr (Or.inl rfl)))⟩

/-- C2: the joint limiter leaves `dq[0]` and `dq[1]` as they are and replaces
`dq[2]` by `0.05 - q[2]` exactly when `q[2] + dq[2] < 0.05` (there is no upper
clamp); with `q[2] = 0.1` and `dq[2] = -0.2` the new `dq[2]` is `-0.05`. -/
theorem jointLimiter_components (q dq : Vec3) :
    jointLimiter q dq 0 = dq 0 ∧ jointLimiter q dq 1 = dq 1 ∧
    jointLimiter q dq 2 = (if q 2 + dq 2 < 5 / 100 then 5 / 100 - q 2 else dq 2) ∧
    ∀ q0 q1 d0 d1 : ℚ,
      jointLimiter ![q0, q1, 1 / 10] ![d0, d1, -2 / 10] = ![d0, d1, -5 / 100] := by
  refine ⟨?_, ?_, ?_, ?_⟩
  · unfold jointLimiter
    split <;> simp [Function.update]
  · unfold jointLimiter
    split <;> simp [Function.update]
  · unfold jointLimiter aimFloor
    split <;> simp [Function.update]
  · intro q0 q1 d0 d1
    have h : (![q0, q1, 1 / 10] : Vec3) 2 + (![d0, d1, -2 / 10] : Vec3) 2 < aimFloor := by
      simp [aimFloor]; norm_num
    unfold jointLimiter
    rw [if_pos h]
    ext i
    fin_cases i <;> simp [Function.update, aimFloor]
    norm_num

/-- C3 as stated fails in the arithmetic of the code: at the `float` values
`q[2] = 0.25`, `dq[2] = -1` the limiter overrides `dq[2]`, the stored `float` is
`-13421773 / 2^26`, and the projected position `q[2] + dq'[2]` is `3355443 / 2^26`,
which is below `0.05`. -/
theorem jointLimiterFloat_below_floor :
    toFloat (1 / 4) = 1 / 4 ∧ toFloat (-1) = -1 ∧
    toFloat ((![0, 0, 1 / 4] : Vec3) 2 + (![0, 0, -1] : Vec3) 2) < toDouble (5 / 100) ∧
    jointLimiterFloat ![0, 0, 1 / 4] ![0, 0, -1] 2 = -13421773 / 67108864 ∧
    (![0, 0, 1 / 4] : Vec3) 2 + jointLimiterFloat ![0, 0, 1 / 4] ![0, 0, -1] 2
      = 3355443 / 67108864 ∧
    (3355443 / 67108864 : ℚ) < 5 / 100 := by
  have hsum : (![0, 0, 1 / 4] : Vec3) 2 + (![0, 0, -1] : Vec3) 2 = -3 / 4 := by
    simp
    norm_num
  refine ⟨toFloat_quarter, toFloat_minus_one, ?_, ?_, ?_, by norm_num⟩
  · rw [hsum, toFloat_minus_three_quarters, toDouble_floor_literal]
    norm_num
  · rw [jointLimiterFloat_quarter]
    simp
  · rw [jointLimiterFloat_quarter]
    simp
    norm_num

/-- C3, amended: in exact arithmetic the projected aim position `q[2] + dq'[2]`
after the joint limiter is at least `0.05`, and it is exactly `0.05` whenever
`q[2] + dq[2] < 0.05` held before the limiter.  In the `float` arithmetic of the
code this fails by a rounding error: at `q[2] = 0.25`, `dq[2] = -1` the projected
position is below `0.05`. -/
theorem jointLimiter_projected_floor (q dq : Vec3) :
    5 / 100 ≤ q 2 + jointLimiter q dq 2 ∧
    (q 2 + dq 2 < 5 / 100 → q 2 + jointLimiter q dq 2 = 5 / 100) ∧
    (![0, 0, 1 / 4] : Vec3) 2 + jointLimiterFloat ![0, 0, 1 / 4] ![0, 0, -1] 2 < 5 / 100 := by
  unfold jointLimiter aimFloor
  refine ⟨?_, ?_, ?_⟩
  · split
    · simp [Function.update]
    · linarith
  · intro h
    rw [if_pos h]
    simp [Function.update]
  · rw [jointLimiterFloat_quarter]
    simp
    norm_num

theorem jointLimiter_projected_floor_witness :
    (![0, 0, 1 / 10] : Vec3) 2 + (![0, 0, -2 / 10] : Vec3) 2 < 5 / 100 ∧
    (![0, 0, 1 / 10] : Vec3) 2 + jointLimiter ![0, 0, 1 / 10] ![0, 0, -2 / 10] 2 = 5 / 100 :=
  have h : (![0, 0, 1 / 10] : Vec3) 2 + (![0, 0, -2 / 10] : Vec3) 2 < 5 / 100 := by
    simp; norm_num
  ⟨h, (jointLimiter_projected_floor ![0, 0, 1 / 10] ![0, 0, -2 / 10]).2.1 h⟩

/-- C4: on a buffer of `N >= 1` columns `updateBuffer` returns a buffer of `N`
columns whose column `j` is the old column `j + 1` for `j + 1 < N` and whose
last column is `value` (the old leftmost column is the one dropped); any
sequence of such pushes keeps the number of columns at `N`. -/
theorem updateBuffer_shifts_left (buffer : Buffer) (value : Vec3)
    (hN : 1 ≤ buffer.length) :
    ∃ b, updateBuffer buffer value = some b ∧ b.length = buffer.length ∧
      (∀ j, j + 1 < buffer.length → b[j]? = buffer[j + 1]?) ∧
      b[buffer.length - 1]? = some value ∧
      b = buffer.tail ++ [value] ∧
      ∀ vs : List Vec3, ∃ b1, pushAll buffer vs = some b1 ∧ b1.length = buffer.length := by
  refine ⟨specPush buffer value, updateBuffer_eq_specPush buffer value hN,
    length_specPush buffer value hN, ?_, ?_, rfl, fun vs => pushAll_length vs buffer hN⟩
  · intro j hj
    rw [specPush, List.getElem?_append_left (by simp; omega), List.getElem?_tail]
  · rw [specPush, List.getElem?_append_right (by simp)]
    simp

theorem updateBuffer_shifts_left_witness :
    1 ≤ ([![1, 2, 3], ![4, 5, 6], ![7, 8, 9]] : Buffer).length ∧
    ∃ b, updateBuffer [![1, 2, 3], ![4, 5, 6], ![7, 8, 9]] ![10, 11, 12] = some b ∧
      b.length = ([![1, 2, 3], ![4, 5, 6], ![7, 8, 9]] : Buffer).length ∧
      (∀ j, j + 1 < ([![1, 2, 3], ![4, 5, 6], ![7, 8, 9]] : Buffer).length →
        b[j]? = ([![1, 2, 3], ![4, 5, 6], ![7, 8, 9]] : Buffer)[j + 1]?) ∧
      b[([![1, 2, 3], ![4, 5, 6], ![7, 8, 9]] : Buffer).length - 1]? = some ![10, 11, 12] ∧
      b = ([![1, 2, 3], ![4, 5, 6], ![7, 8, 9]] : Buffer).tail ++ [![10, 11, 12]] ∧
      ∀ vs : List Vec3, ∃ b1, pushAll [![1, 2, 3], ![4, 5, 6], ![7, 8, 9]] vs = some b1 ∧
        b1.length = ([![1, 2, 3], ![4, 5, 6], ![7, 8, 9]] : Buffer).length :=
  ⟨by decide, updateBuffer_shifts_left _ _ (by decide)⟩

/-- C5: for `N >= 1` columns and a rate `hz >= 1`, `calculateErrorIntegral`
returns `(sum of all columns) * dt / N` with `dt = 1 / hz`; when every column
equals `c` this is exactly `c * dt`.  It is not `(sum of all columns) * dt`:
two columns `(1, 0, 0)` at `hz = 1` give `(1, 0, 0)`, not `(2, 0, 0)`. -/
theorem calculateErrorIntegral_mean (buffer : Buffer) (hz : ℤ) (c : Vec3)
    (hN : 1 ≤ buffer.length) (hhz : 1 ≤ hz) :
    calculateErrorIntegral buffer hz
      = some (fun i => buffer.sum i * (1 / (hz : ℚ)) / (buffer.length : ℚ)) ∧
    ((∀ x ∈ buffer, x = c) →
      calculateErrorIntegral buffer hz = some (fun i => c i * (1 / (hz : ℚ)))) ∧
    calculateErrorIntegral [![1, 0, 0], ![1, 0, 0]] 1 = some ![1, 0, 0] ∧
    calculateErrorIntegral [![1, 0, 0], ![1, 0, 0]] 1
      ≠ some (fun i => ([![1, 0, 0], ![1, 0, 0]] : Buffer).sum i * (1 / ((1 : ℤ) : ℚ))) := by
  have hgen := calculateErrorIntegral_eq buffer hz hN hhz
  have hex : calculateErrorIntegral [![1, 0, 0], ![1, 0, 0]] 1 = some ![1, 0, 0] := by
    rw [calculateErrorIntegral_eq _ _ (by decide) (by decide)]
    congr 1
    funext i
    fin_cases i <;> simp [specIntegral]
  refine ⟨hgen, ?_, hex, ?_⟩
  · intro hc
    have hrep : buffer = List.replicate buffer.length c :=
      List.eq_replicate_iff.mpr ⟨rfl, hc⟩
    have hlen : ((buffer.length : ℚ)) ≠ 0 := by
      have : (0 : ℚ) < (buffer.length : ℚ) := by exact_mod_cast hN
      exact ne_of_gt this
    rw [hgen]
    congr 1
    funext i
    have hsum : buffer.sum i = (buffer.length : ℚ) * c i := by
      rw [hrep, List.sum_replicate]
      simp
    simp only [specIntegral, hsum]
    field_simp
    ring
  · rw [hex]
    intro h
    have h0 := congrFun (Option.some.inj h) 0
    norm_num at h0

theorem calculateErrorIntegral_mean_witness :
    1 ≤ ([![2, 4, 6], ![2, 4, 6], ![2, 4, 6]] : Buffer).length ∧ (1 : ℤ) ≤ 10 ∧
    (∀ x ∈ ([![2, 4, 6], ![2, 4, 6], ![2, 4, 6]] : Buffer), x = ![2, 4, 6]) ∧
    calculateErrorIntegral [![2, 4, 6], ![2, 4, 6], ![2, 4, 6]] 10
      = some (fun i => (![2, 4, 6] : Vec3) i * (1 / ((10 : ℤ) : ℚ))) :=
  have hc : ∀ x ∈ ([![2, 4, 6], ![2, 4, 6], ![2, 4, 6]] : Buffer), x = ![2, 4, 6] := by
    intro x hx
    simpa using hx
  ⟨by decide, by decide, hc,
    (calculateErrorIntegral_mean [![2, 4, 6], ![2, 4, 6], ![2, 4, 6]] 10 ![2, 4, 6]
      (by decide) (by decide)).2.1 hc⟩

/-- C6: for `N >= 2` columns and a rate `hz >= 1`, `calculateErrorDt` returns
`(newest - oldest) / (dt * (N - 1))` with `dt = 1 / hz`; hence, if column `j` of
the buffer is `e0 + a * j * dt` for every `j < N`, it returns exactly `a`. -/
theorem calculateErrorDt_ramp (buffer : Buffer) (hz : ℤ) (e0 a : Vec3)
    (hN : 2 ≤ buffer.length) (hhz : 1 ≤ hz) :
    calculateErrorDt buffer hz
      = some (fun i => (buffer.getLastD 0 i - buffer.headD 0 i)
          / (1 / (hz : ℚ) * ((buffer.length : ℚ) - 1))) ∧
    ((∀ j, j < buffer.length →
        buffer[j]? = some (fun i => e0 i + a i * (j : ℚ) * (1 / (hz : ℚ)))) →
      calculateErrorDt buffer hz = some a) := by
  refine ⟨calculateErrorDt_eq buffer hz hN hhz, ?_⟩
  intro hramp
  have h0 : ¬ buffer.length = 0 := by omega
  have hd := errorDtDivisor_ne_zero hz buffer.length hN hhz
  have hlast := hramp (buffer.length - 1) (by omega)
  have hfirst := hramp 0 (by omega)
  simp only [calculateErrorDt, timeStep_of_pos hz hhz, if_neg h0, divVec, if_neg hd,
    List.getD_eq_getElem?_getD, hlast, hfirst, Option.getD_some]
  congr 1
  funext i
  have hz0 : ((hz : ℚ)) ≠ 0 := by
    have : (0 : ℚ) < (hz : ℚ) := by exact_mod_cast hhz
    exact ne_of_gt this
  have hn1 : (buffer.length : ℚ) - 1 ≠ 0 := by
    have h2 : (2 : ℚ) ≤ (buffer.length : ℚ) := by exact_mod_cast hN
    have h' : (0 : ℚ) < (buffer.length : ℚ) - 1 := by linarith
    exact ne_of_gt h'
  have hcastZ : (((buffer.length : ℤ) - 1 : ℤ) : ℚ) = (buffer.length : ℚ) - 1 := by
    push_cast
    ring
  have hcast : ((buffer.length - 1 : ℕ) : ℚ) = (buffer.length : ℚ) - 1 := by
    have h1 : 1 ≤ buffer.length := by omega
    push_cast [Nat.cast_sub h1]
    ring
  simp only [Pi.sub_apply, errorDtDivisor, hcast, hcastZ]
  field_simp
  ring

theorem calculateErrorDt_ramp_witness :
    2 ≤ ([![1, 0, 0], ![12 / 10, 0, -1 / 10], ![14 / 10, 0, -2 / 10]] : Buffer).length ∧
    (1 : ℤ) ≤ 10 ∧
    (∀ j, j < ([![1, 0, 0], ![12 / 10, 0, -1 / 10], ![14 / 10, 0, -2 / 10]] : Buffer).length →
      ([![1, 0, 0], ![12 / 10, 0, -1 / 10], ![14 / 10, 0, -2 / 10]] : Buffer)[j]?
        = some (fun i => (![1, 0, 0] : Vec3) i
            + (![2, 0, -1] : Vec3) i * (j : ℚ) * (1 / ((10 : ℤ) : ℚ)))) ∧
    calculateErrorDt [![1, 0, 0], ![12 / 10, 0, -1 / 10], ![14 / 10, 0, -2 / 10]] 10
      = some ![2, 0, -1] :=
  have hramp : ∀ j,
      j < ([![1, 0, 0], ![12 / 10, 0, -1 / 10], ![14 / 10, 0, -2 / 10]] : Buffer).length →
      ([![1, 0, 0], ![12 / 10, 0, -1 / 10], ![14 / 10, 0, -2 / 10]] : Buffer)[j]?
        = some (fun i => (![1, 0, 0] : Vec3) i
            + (![2, 0, -1] : Vec3) i * (j : ℚ) * (1 / ((10 : ℤ) : ℚ))) := by
    intro j hj
    have hj3 : j < 3 := hj
    interval_cases j
    · simp only [List.getElem?_cons_zero, Option.some.injEq]
      funext i
      fin_cases i <;> simp
    · simp only [List.getElem?_cons_succ, List.getElem?_cons_zero, Option.some.injEq]
      funext i
      fin_cases i <;> simp <;> norm_num
    · simp only [List.getElem?_cons_succ, List.getElem?_cons_zero, Option.some.injEq]
      funext i
      fin_cases i <;> simp <;> norm_num
  ⟨by decide, by decide, hramp,
    (calculateErrorDt_ramp _ 10 ![1, 0, 0] ![2, 0, -1] (by decide) (by decide)).2 hramp⟩

/-- C7: for a buffer `B` of `N >= 2` columns and a rate `hz >= 1`,
`getPIDVelocity` pushes `error = td - t3` into the buffer, giving
`B1 = push(B, error)`, and returns
`kp * error + kd * derivative(B1, dt) - ki * integral(B1, dt)` with `dt = 1 / hz`,
the derivative and the integral being those of the specification taken over the
buffer after the push; the state changes in the buffer only. -/
theorem getPIDVelocity_formula (cfg : Config) (s : State)
    (hN : 2 ≤ s.buffer.length) (hhz : 1 ≤ cfg.timer_hz) :
    let error : Vec3 := s.td_transform - s.t3_transform
    let B1 : Buffer := specPush s.buffer error
    let dt : ℚ := 1 / (cfg.timer_hz : ℚ)
    updateBuffer s.buffer error = some B1 ∧
    getPIDVelocity cfg s
      = some ((fun i => cfg.kp * error i + cfg.kd * specDerivative B1 dt i
                - cfg.ki * specIntegral B1 dt i),
          { s with buffer := B1 }) := by
  intro error B1 dt
  refine ⟨updateBuffer_eq_specPush _ _ (by omega), ?_⟩
  rw [getPIDVelocity_eq cfg s hN hhz]
  rfl

theorem getPIDVelocity_formula_witness :
    2 ≤ (initialState 10).buffer.length ∧ 1 ≤ defaultConfig.timer_hz ∧
    (let error : Vec3 := (initialState 10).td_transform - (initialState 10).t3_transform
     let B1 : Buffer := specPush (initialState 10).buffer error
     let dt : ℚ := 1 / (defaultConfig.timer_hz : ℚ)
     updateBuffer (initialState 10).buffer error = some B1 ∧
     getPIDVelocity defaultConfig (initialState 10)
       = some ((fun i => defaultConfig.kp * error i
                  + defaultConfig.kd * specDerivative B1 dt i
                  - defaultConfig.ki * specIntegral B1 dt i),
           { initialState 10 with buffer := B1 })) :=
  ⟨by decide, by decide,
    getPIDVelocity_formula defaultConfig (initialState 10) (by decide) (by decide)⟩

/-- C8: for `N >= 2` columns all equal to `e0`, a rate `hz >= 1` and a new
error sample `td - t3 = e0`, `getPIDVelocity` returns `kp * e0 - ki * e0 * dt`
with `dt = 1 / hz` (the derivative term vanishes) and leaves a buffer of `N`
columns all equal to `e0`. -/
theorem getPIDVelocity_constant_history (cfg : Config) (s : State) (e0 : Vec3)
    (hN : 2 ≤ s.buffer.length) (hhz : 1 ≤ cfg.timer_hz)
    (hc : ∀ x ∈ s.buffer, x = e0) (herr : s.td_transform - s.t3_transform = e0) :
    ∃ s1, getPIDVelocity cfg s
        = some ((fun i => cfg.kp * e0 i - cfg.ki * (e0 i * (1 / (cfg.timer_hz : ℚ)))), s1) ∧
      (∀ x ∈ s1.buffer, x = e0) ∧ s1.buffer.length = s.buffer.length ∧
      s1 = { s with buffer := s1.buffer } := by
  have h1 : 1 ≤ s.buffer.length := by omega
  have hl := length_specPush s.buffer e0 h1
  have hall := specPush_const s.buffer e0 hc
  refine ⟨{ s with buffer := specPush s.buffer e0 }, ?_, hall, hl, rfl⟩
  rw [getPIDVelocity_eq cfg s hN hhz, herr,
    specDerivative_const _ e0 _ (by omega) hall, specIntegral_const _ e0 _ (by omega) hall]
  congr 1
  congr 1
  funext i
  simp

theorem getPIDVelocity_constant_history_witness :
    2 ≤ constantErrorState.buffer.length ∧ 1 ≤ defaultConfig.timer_hz ∧
    (∀ x ∈ constantErrorState.buffer, x = ![1, 2, 3]) ∧
    constantErrorState.td_transform - constantErrorState.t3_transform = ![1, 2, 3] ∧
    ∃ s1, getPIDVelocity defaultConfig constantErrorState
        = some ((fun i => defaultConfig.kp * (![1, 2, 3] : Vec3) i
            - defaultConfig.ki * ((![1, 2, 3] : Vec3) i * (1 / (defaultConfig.timer_hz : ℚ)))),
          s1) ∧
      (∀ x ∈ s1.buffer, x = ![1, 2, 3]) ∧
      s1.buffer.length = constantErrorState.buffer.length ∧
      s1 = { constantErrorState with buffer := s1.buffer } :=
  have hc : ∀ x ∈ constantErrorState.buffer, x = ![1, 2, 3] := by
    intro x hx
    simpa [constantErrorState] using hx
  have herr : constantErrorState.td_transform - constantErrorState.t3_transform
      = ![1, 2, 3] := by
    simp [constantErrorState, initialState]
  ⟨by decide, by decide, hc, herr,
    getPIDVelocity_constant_history defaultConfig constantErrorState ![1, 2, 3]
      (by decide) (by decide) hc herr⟩

/-- C9: rows 1-3 of the Jacobian are the columns `[Z1, Y2, 0]` and rows 4-6 are
the columns `[Z1 x (t3 - t1), Y2 x (t3 - t2), X3]`; for `Z1 = (0,0,1)`,
`Y2 = (0,1,0)`, `X3 = (1,0,0)`, `t1 = 0`, `t2 = (0,0,0.2)`, `t3 = (0.3,0,0.5)` the
linear columns are `(0,0.3,0)`, `(0.3,0,-0.3)` and `(1,0,0)`. -/
theorem Jacobian_blocks (Z1 Y2 X3 t1 t2 t3 : Vec3) :
    (∀ i : Fin 3,
      Jacobian Z1 Y2 X3 t1 t2 t3 ⟨i.val, by omega⟩ 0 = Z1 i ∧
      Jacobian Z1 Y2 X3 t1 t2 t3 ⟨i.val, by omega⟩ 1 = Y2 i ∧
      Jacobian Z1 Y2 X3 t1 t2 t3 ⟨i.val, by omega⟩ 2 = 0) ∧
    (∀ i : Fin 3,
      Jacobian Z1 Y2 X3 t1 t2 t3 ⟨i.val + 3, by omega⟩ 0 = crossProduct Z1 (t3 - t1) i ∧
      Jacobian Z1 Y2 X3 t1 t2 t3 ⟨i.val + 3, by omega⟩ 1 = crossProduct Y2 (t3 - t2) i ∧
      Jacobian Z1 Y2 X3 t1 t2 t3 ⟨i.val + 3, by omega⟩ 2 = X3 i) ∧
    ((fun i : Fin 3 => Jacobian ![0, 0, 1] ![0, 1, 0] ![1, 0, 0] ![0, 0, 0] ![0, 0, 2 / 10]
        ![3 / 10, 0, 5 / 10] ⟨i.val + 3, by omega⟩ 0) = ![0, 3 / 10, 0] ∧
     (fun i : Fin 3 => Jacobian ![0, 0, 1] ![0, 1, 0] ![1, 0, 0] ![0, 0, 0] ![0, 0, 2 / 10]
        ![3 / 10, 0, 5 / 10] ⟨i.val + 3, by omega⟩ 1) = ![3 / 10, 0, -3 / 10] ∧
     (fun i : Fin 3 => Jacobian ![0, 0, 1] ![0, 1, 0] ![1, 0, 0] ![0, 0, 0] ![0, 0, 2 / 10]
        ![3 / 10, 0, 5 / 10] ⟨i.val + 3, by omega⟩ 2) = ![1, 0, 0]) := by
  refine ⟨?_, ?_, ?_, ?_, ?_⟩
  · intro i
    fin_cases i <;> simp [Jacobian, vstack]
  · intro i
    fin_cases i <;> simp [Jacobian, vstack, cross, cross_apply, vec6_val_five]
  · funext i
    fin_cases i <;> simp [Jacobian, vstack, cross, vec6_val_five]
  · funext i
    fin_cases i <;> simp [Jacobian, vstack, cross, vec6_val_five] <;> norm_num
  · funext i
    fin_cases i <;> simp [Jacobian, vstack, cross, vec6_val_five, Matrix.vecHead, Matrix.vecTail]

/-- C10: when the Jacobian `J` has full column rank 3 and `pinv J` is its
pseudoinverse, the velocity `dq = pinv(J) * dx` with `dx = [0,0,0,v]`, computed
before the limiter, is the least-squares solution of `J * dq = dx`: it satisfies
the normal equations `JᵀJ dq = Jᵀ dx`, its residual has the smallest Euclidean
norm among all 3-vectors (compared through the squared norms), and it is the
only solution of the normal equations. -/
theorem solveJointVelocity_least_squares
    (pinv : Matrix (Fin 6) (Fin 3) ℚ → Matrix (Fin 3) (Fin 6) ℚ)
    (J : Matrix (Fin 6) (Fin 3) ℚ) (v : Vec3)
    (hrank : FullColumnRank J) (hpinv : IsPseudoInverse J (pinv J)) :
    Matrix.mulVec (J.transpose * J) (solveJointVelocity pinv J v)
      = Matrix.mulVec J.transpose (vstack 0 v) ∧
    (∀ y : Vec3,
      normSq (Matrix.mulVec J (solveJointVelocity pinv J v) - vstack 0 v)
        ≤ normSq (Matrix.mulVec J y - vstack 0 v)) ∧
    (∀ y : Vec3,
      Matrix.mulVec (J.transpose * J) y = Matrix.mulVec J.transpose (vstack 0 v) →
      y = solveJointVelocity pinv J v) := by
  have hn : Matrix.mulVec (J.transpose * J) (solveJointVelocity pinv J v)
      = Matrix.mulVec J.transpose (vstack 0 v) := by
    unfold solveJointVelocity
    rw [Matrix.mulVec_mulVec, pinv_normal_matrix hpinv]
  refine ⟨hn, ?_, ?_⟩
  · intro y
    have hr : Matrix.mulVec J.transpose
        (Matrix.mulVec J (solveJointVelocity pinv J v) - vstack 0 v) = 0 := by
      rw [Matrix.mulVec_sub, Matrix.mulVec_mulVec, hn, sub_self]
    have hdecomp : Matrix.mulVec J y - vstack 0 v
        = (Matrix.mulVec J (solveJointVelocity pinv J v) - vstack 0 v)
          + Matrix.mulVec J (y - solveJointVelocity pinv J v) := by
      rw [Matrix.mulVec_sub]
      abel
    have hcross : Matrix.dotProduct
        (Matrix.mulVec J (solveJointVelocity pinv J v) - vstack 0 v)
        (Matrix.mulVec J (y - solveJointVelocity pinv J v)) = 0 := by
      rw [Matrix.dotProduct_mulVec, ← Matrix.mulVec_transpose, hr, Matrix.zero_dotProduct]
    rw [hdecomp, normSq_add, hcross]
    linarith [normSq_nonneg (Matrix.mulVec J (y - solveJointVelocity pinv J v))]
  · intro y hy
    have hinj := Matrix.mulVec_injective_iff_isUnit.mpr (isUnit_gram_of_fullColumnRank hrank)
    exact hinj (hy.trans hn.symm)

theorem solveJointVelocity_least_squares_witness :
    FullColumnRank exampleJacobian ∧
    IsPseudoInverse exampleJacobian (leftPseudoInverse exampleJacobian) ∧
    Matrix.mulVec (exampleJacobian.transpose * exampleJacobian)
        (solveJointVelocity leftPseudoInverse exampleJacobian ![1, 2, 3])
      = Matrix.mulVec exampleJacobian.transpose (vstack 0 ![1, 2, 3]) ∧
    (∀ y : Vec3,
      normSq (Matrix.mulVec exampleJacobian
          (solveJointVelocity leftPseudoInverse exampleJacobian ![1, 2, 3])
          - vstack 0 ![1, 2, 3])
        ≤ normSq (Matrix.mulVec exampleJacobian y - vstack 0 ![1, 2, 3])) ∧
    (∀ y : Vec3,
      Matrix.mulVec (exampleJacobian.transpose * exampleJacobian) y
        = Matrix.mulVec exampleJacobian.transpose (vstack 0 ![1, 2, 3]) →
      y = solveJointVelocity leftPseudoInverse exampleJacobian ![1, 2, 3]) :=
  ⟨fullColumnRank_of_det_ne_zero exampleJacobian_gram_det,
    leftPseudoInverse_isPseudoInverse exampleJacobian_gram_det,
    solveJointVelocity_least_squares leftPseudoInverse exampleJacobian ![1, 2, 3]
      (fullColumnRank_of_det_ne_zero exampleJacobian_gram_det)
      (leftPseudoInverse_isPseudoInverse exampleJacobian_gram_det)⟩

/-! ## Lemmas on one tick -/

theorem getPIDVelocity_some {cfg : Config} {s s2 : State} {v : Vec3}
    (h : getPIDVelocity cfg s = some (v, s2)) :
    ∃ b, updateBuffer s.buffer (s.td_transform - s.t3_transform) = some b ∧
      s2 = { s with buffer := b } := by
  unfold getPIDVelocity at h
  cases hb : updateBuffer s.buffer (s.td_transform - s.t3_transform) with
  | none => simp [hb] at h
  | some b =>
    refine ⟨b, rfl, ?_⟩
    simp only [hb] at h
    cases hd : calculateErrorDt b cfg.timer_hz with
    | none => simp [hd] at h
    | some d =>
      simp only [hd] at h
      cases hi : calculateErrorIntegral b cfg.timer_hz with
      | none => simp [hi] at h
      | some e =>
        simp only [hi, Option.some.injEq, Prod.mk.injEq] at h
        exact h.2.symm

theorem integrate_some {q dq q1 : Vec3} {hz : ℤ} (h : integrate q dq hz = some q1) :
    hz ≠ 0 ∧ q1 = fun i => q i + dq i / (hz : ℚ) := by
  unfold integrate divVec at h
  by_cases h0 : (hz : ℚ) = 0
  · simp [h0] at h
  · simp only [if_neg h0, Option.some.injEq] at h
    refine ⟨fun e => h0 (by simp [e]), ?_⟩
    rw [← h]
    rfl

theorem integrate_of_ne_zero (q dq : Vec3) (hz : ℤ) (h : hz ≠ 0) :
    integrate q dq hz = some (fun i => q i + dq i / (hz : ℚ)) := by
  have h0 : ¬ (hz : ℚ) = 0 := by exact_mod_cast h
  simp only [integrate, divVec, if_neg h0]
  rfl

theorem ikStep_some {pinv : Matrix (Fin 6) (Fin 3) ℚ → Matrix (Fin 3) (Fin 6) ℚ}
    {cfg : Config} {t1 t2 t3 td : Transform} {s s1 : State} {out : List Output}
    (h : ikStep pinv cfg t1 t2 t3 td s = some (s1, out)) :
    ∃ v s2 q1, getPIDVelocity cfg (storePoses t1 t2 t3 td s) = some (v, s2) ∧
      integrate s.q
        (jointLimiter s.q (solveJointVelocity pinv (stateJacobian (storePoses t1 t2 t3 td s)) v))
        cfg.timer_hz = some q1 ∧
      s1 = { s2 with
        dq := jointLimiter s.q
          (solveJointVelocity pinv (stateJacobian (storePoses t1 t2 t3 td s)) v)
        q := q1 } ∧
      out = publishTurretJointGoal cfg s1 := by
  unfold ikStep at h
  cases hv : getPIDVelocity cfg (storePoses t1 t2 t3 td s) with
  | none => simp [hv] at h
  | some r =>
    obtain ⟨v, s2⟩ := r
    obtain ⟨b, _, hs2⟩ := getPIDVelocity_some hv
    have hq : s2.q = s.q := by rw [hs2]; rfl
    simp only [hv, hq] at h
    cases hi : integrate s.q (jointLimiter s.q (solveJointVelocity pinv
        (Jacobian (storePoses t1 t2 t3 td s).Z1 (storePoses t1 t2 t3 td s).Y2
          (storePoses t1 t2 t3 td s).X3 (storePoses t1 t2 t3 td s).t1_transform
          (storePoses t1 t2 t3 td s).t2_transform (storePoses t1 t2 t3 td s).t3_transform) v))
        cfg.timer_hz with
    | none => simp [hi] at h
    | some q1 =>
      simp only [hi, Option.some.injEq, Prod.mk.injEq] at h
      refine ⟨v, s2, q1, rfl, hi, h.1.symm, ?_⟩
      rw [← h.2, ← h.1]

theorem ikStep_returns (pinv : Matrix (Fin 6) (Fin 3) ℚ → Matrix (Fin 3) (Fin 6) ℚ)
    (cfg : Config) (t1 t2 t3 td : Transform) (s : State)
    (hN : 2 ≤ s.buffer.length) (hhz : 1 ≤ cfg.timer_hz) :
    ∃ r, ikStep pinv cfg t1 t2 t3 td s = some r := by
  have hN1 : 2 ≤ (storePoses t1 t2 t3 td s).buffer.length := hN
  have h0 : cfg.timer_hz ≠ 0 := by omega
  unfold ikStep
  simp only [getPIDVelocity_eq cfg _ hN1 hhz, integrate_of_ne_zero _ _ _ h0]
  exact ⟨_, rfl⟩

theorem setTurretJointGoal_success {pinv : Matrix (Fin 6) (Fin 3) ℚ → Matrix (Fin 3) (Fin 6) ℚ}
    {cfg : Config} {t1 t2 t3 td : Transform} {s s1 : State} {out : List Output}
    (h : setTurretJointGoal pinv cfg (some t1) (some t2) (some t3) (some td) s
      = some (s1, out)) :
    ikStep pinv cfg t1 t2 t3 td s = some (s1, publishTurretJointGoal cfg s1) ∧
      out = publishTurretJointGoal cfg s1 ++ publishSimJointStates cfg s1 := by
  simp only [setTurretJointGoal] at h
  cases hk : ikStep pinv cfg t1 t2 t3 td s with
  | none => simp [hk] at h
  | some r =>
    obtain ⟨sa, outa⟩ := r
    simp only [hk, Option.some.injEq, Prod.mk.injEq] at h
    obtain ⟨_, _, _, _, _, _, hout⟩ := ikStep_some hk
    obtain ⟨hs, ho⟩ := h
    subst hs
    subst hout
    exact ⟨rfl, ho.symm⟩

theorem setTurretJointGoal_failure {pinv : Matrix (Fin 6) (Fin 3) ℚ → Matrix (Fin 3) (Fin 6) ℚ}
    {cfg : Config} {l1 l2 l3 ld : Option Transform} {s : State}
    (h : l1 = none ∨ l2 = none ∨ l3 = none ∨ ld = none) :
    setTurretJointGoal pinv cfg l1 l2 l3 ld s
      = some (s, Output.log :: publishSimJointStates cfg s) := by
  rcases l1 with _ | t1 <;> rcases l2 with _ | t2 <;> rcases l3 with _ | t3 <;>
    rcases ld with _ | td <;> simp_all [setTurretJointGoal]

theorem setTurretJointGoal_returns (pinv : Matrix (Fin 6) (Fin 3) ℚ → Matrix (Fin 3) (Fin 6) ℚ)
    (cfg : Config) (l1 l2 l3 ld : Option Transform) (s : State)
    (hN : 2 ≤ s.buffer.length) (hhz : 1 ≤ cfg.timer_hz) :
    ∃ r, setTurretJointGoal pinv cfg l1 l2 l3 ld s = some r := by
  by_cases h : l1 = none ∨ l2 = none ∨ l3 = none ∨ ld = none
  · exact ⟨_, setTurretJointGoal_failure h⟩
  · obtain ⟨t1, rfl⟩ : ∃ t, l1 = some t := by
      cases l1 with
      | none => exact absurd (Or.inl rfl) h
      | some t => exact ⟨t, rfl⟩
    obtain ⟨t2, rfl⟩ : ∃ t, l2 = some t := by
      cases l2 with
      | none => exact absurd (Or.inr (Or.inl rfl)) h
      | some t => exact ⟨t, rfl⟩
    obtain ⟨t3, rfl⟩ : ∃ t, l3 = some t := by
      cases l3 with
      | none => exact absurd (Or.inr (Or.inr (Or.inl rfl))) h
      | some t => exact ⟨t, rfl⟩
    obtain ⟨td, rfl⟩ : ∃ t, ld = some t := by
      cases ld with
      | none => exact absurd (Or.inr (Or.inr (Or.inr rfl))) h
      | some t => exact ⟨t, rfl⟩
    obtain ⟨⟨sa, outa⟩, hr⟩ := ikStep_returns pinv cfg t1 t2 t3 td s hN hhz
    refine ⟨(sa, outa ++ publishSimJointStates cfg sa), ?_⟩
    simp only [setTurretJointGoal, hr]

theorem outputs_of_publishSimJointStates (cfg : Config) (s : State) :
    commandsOf (publishSimJointStates cfg s) = [] ∧
    aimJointStatesOf (publishSimJointStates cfg s) = [[s.q 2]] ∧
    panTiltStatesOf (publishSimJointStates cfg s)
      = (if cfg.turret_simulate_joint_states then [[s.q 0, s.q 1]] else []) := by
  unfold publishSimJointStates commandsOf aimJointStatesOf panTiltStatesOf
  cases cfg.turret_simulate_joint_states <;> simp

theorem outputs_of_publishTurretJointGoal (cfg : Config) (s : State) :
    commandsOf (publishTurretJointGoal cfg s) = [[s.dq 0, s.dq 1]] ∧
    aimJointStatesOf (publishTurretJointGoal cfg s) = [] ∧
    panTiltStatesOf (publishTurretJointGoal cfg s) = [] := by
  unfold publishTurretJointGoal commandsOf aimJointStatesOf panTiltStatesOf
  simp

theorem outputs_of_failure (cfg : Config) (s : State) :
    commandsOf (Output.log :: publishSimJointStates cfg s) = [] ∧
    aimJointStatesOf (Output.log :: publishSimJointStates cfg s) = [[s.q 2]] ∧
    panTiltStatesOf (Output.log :: publishSimJointStates cfg s)
      = (if cfg.turret_simulate_joint_states then [[s.q 0, s.q 1]] else []) := by
  obtain ⟨h1, h2, h3⟩ := outputs_of_publishSimJointStates cfg s
  refine ⟨?_, ?_, ?_⟩
  · simpa [commandsOf] using h1
  · simpa [aimJointStatesOf] using h2
  · simpa [panTiltStatesOf] using h3

theorem outputs_of_success (cfg : Config) (s : State) :
    commandsOf (publishTurretJointGoal cfg s ++ publishSimJointStates cfg s)
      = [[s.dq 0, s.dq 1]] ∧
    aimJointStatesOf (publishTurretJointGoal cfg s ++ publishSimJointStates cfg s)
      = [[s.q 2]] ∧
    panTiltStatesOf (publishTurretJointGoal cfg s ++ publishSimJointStates cfg s)
      = (if cfg.turret_simulate_joint_states then [[s.q 0, s.q 1]] else []) := by
  obtain ⟨h1, h2, h3⟩ := outputs_of_publishSimJointStates cfg s
  obtain ⟨g1, g2, g3⟩ := outputs_of_publishTurretJointGoal cfg s
  refine ⟨?_, ?_, ?_⟩
  · unfold commandsOf at h1 g1 ⊢
    rw [List.filterMap_append, h1, g1]
    rfl
  · unfold aimJointStatesOf at h2 g2 ⊢
    rw [List.filterMap_append, h2, g2]
    rfl
  · unfold panTiltStatesOf at h3 g3 ⊢
    rw [List.filterMap_append, h3, g3]
    rfl

theorem lookups_cases (l1 l2 l3 ld : Option Transform) :
    (l1 = none ∨ l2 = none ∨ l3 = none ∨ ld = none) ∨
    ∃ t1 t2 t3 td, l1 = some t1 ∧ l2 = some t2 ∧ l3 = some t3 ∧ ld = some td := by
  rcases l1 with _ | t1
  · exact Or.inl (Or.inl rfl)
  rcases l2 with _ | t2
  · exact Or.inl (Or.inr (Or.inl rfl))
  rcases l3 with _ | t3
  · exact Or.inl (Or.inr (Or.inr (Or.inl rfl)))
  rcases ld with _ | td
  · exact Or.inl (Or.inr (Or.inr (Or.inr rfl)))
  exact Or.inr ⟨t1, t2, t3, td, rfl, rfl, rfl, rfl⟩

theorem getPIDVelocity_with_q (cfg : Config) (s : State) (qb : Vec3) :
    getPIDVelocity cfg { s with q := qb }
      = (getPIDVelocity cfg s).map (fun r => (r.1, { r.2 with q := qb })) := by
  unfold getPIDVelocity
  dsimp only
  cases updateBuffer s.buffer (s.td_transform - s.t3_transform) with
  | none => rfl
  | some b =>
    dsimp only
    cases calculateErrorDt b cfg.timer_hz with
    | none => rfl
    | some d =>
      dsimp only
      cases calculateErrorIntegral b cfg.timer_hz with
      | none => rfl
      | some e => rfl

theorem jointLimiter_zero_one (q dq : Vec3) :
    jointLimiter q dq 0 = dq 0 ∧ jointLimiter q dq 1 = dq 1 := by
  unfold jointLimiter
  split <;> simp [Function.update]

theorem pushAll_eq_drop (vs : List Vec3) (b : Buffer) (h : 1 ≤ b.length) :
    pushAll b vs = some ((b ++ vs).drop vs.length) := by
  induction vs generalizing b with
  | nil => simp [pushAll]
  | cons v vs ih =>
    have hl := length_specPush b v h
    rw [pushAll, updateBuffer_eq_specPush b v h]
    simp only []
    rw [ih (specPush b v) (by omega)]
    cases b with
    | nil => simp at h
    | cons x xs => simp [specPush]

theorem calculateErrorDt_single (b : Buffer) (hz : ℤ) (hN : b.length = 1) :
    calculateErrorDt b hz = none := by
  unfold calculateErrorDt
  cases timeStep hz with
  | none => rfl
  | some dt =>
    have h0 : ¬ b.length = 0 := by omega
    have hd : errorDtDivisor dt b.length = 0 := by
      simp [errorDtDivisor, hN]
    simp only [if_neg h0, divVec, hd, if_true]

theorem calculateErrorDt_empty (b : Buffer) (hz : ℤ) (hN : b.length = 0) :
    calculateErrorDt b hz = none := by
  unfold calculateErrorDt
  cases timeStep hz with
  | none => rfl
  | some dt => simp only [hN, if_true]

theorem timerPeriodMs_eq (hz : ℤ) (hhz : 1 ≤ hz) : timerPeriodMs hz = some (1000 / hz) := by
  have h0 : ¬ hz = 0 := by omega
  have hpos : (0 : ℚ) < (hz : ℚ) := by exact_mod_cast hhz
  have hx : (0 : ℚ) ≤ 1 / (hz : ℚ) * 1000 := by positivity
  have hdiv : hz * (1000 / hz) + 1000 % hz = 1000 := Int.ediv_add_emod 1000 hz
  have hr0 : 0 ≤ 1000 % hz := Int.emod_nonneg _ h0
  have hr1 : 1000 % hz < hz := Int.emod_lt_of_pos _ (by omega)
  have hdivQ : (hz : ℚ) * ((1000 / hz : ℤ) : ℚ) + ((1000 % hz : ℤ) : ℚ) = 1000 := by
    exact_mod_cast hdiv
  have hr0Q : (0 : ℚ) ≤ ((1000 % hz : ℤ) : ℚ) := by exact_mod_cast hr0
  have hr1Q : ((1000 % hz : ℤ) : ℚ) < (hz : ℚ) := by exact_mod_cast hr1
  simp only [timerPeriodMs, if_neg h0, truncToInt, if_pos hx, Option.some.injEq]
  rw [Int.floor_eq_iff]
  constructor
  · rw [one_div, inv_mul_eq_div, le_div_iff₀ hpos]
    linarith
  · rw [one_div, inv_mul_eq_div, div_lt_iff₀ hpos]
    linarith

theorem jointLimiter_floor (q dq : Vec3) : aimFloor ≤ q 2 + jointLimiter q dq 2 := by
  unfold jointLimiter
  split
  · simp [Function.update]
  · linarith

theorem floor_step (q dq : Vec3) (hz : ℤ) (hhz : 1 ≤ hz) (hq : aimFloor ≤ q 2) :
    aimFloor ≤ q 2 + jointLimiter q dq 2 / (hz : ℚ) := by
  have hl := jointLimiter_floor q dq
  have h1 : (1 : ℚ) ≤ (hz : ℚ) := by exact_mod_cast hhz
  have hpos : (0 : ℚ) < (hz : ℚ) := by linarith
  by_cases hd : 0 ≤ jointLimiter q dq 2
  · have : 0 ≤ jointLimiter q dq 2 / (hz : ℚ) := div_nonneg hd (le_of_lt hpos)
    linarith
  · have hneg : jointLimiter q dq 2 < 0 := lt_of_not_ge hd
    have : jointLimiter q dq 2 ≤ jointLimiter q dq 2 / (hz : ℚ) := by
      rw [le_div_iff₀ hpos]
      nlinarith
    linarith

theorem updateBuffer_length {b b1 : Buffer} {v : Vec3} (h : updateBuffer b v = some b1) :
    b1.length = b.length := by
  by_cases h0 : b.length = 0
  · simp [updateBuffer, h0] at h
  · have h1 : 1 ≤ b.length := by omega
    rw [updateBuffer_eq_specPush b v h1] at h
    rw [← Option.some.inj h]
    exact length_specPush b v h1

theorem tick_buffer_length {pinv : Matrix (Fin 6) (Fin 3) ℚ → Matrix (Fin 3) (Fin 6) ℚ}
    {cfg : Config} {l1 l2 l3 ld : Option Transform} {s s1 : State} {out : List Output}
    (h : setTurretJointGoal pinv cfg l1 l2 l3 ld s = some (s1, out)) :
    s1.buffer.length = s.buffer.length := by
  rcases lookups_cases l1 l2 l3 ld with hf | ⟨t1, t2, t3, td, rfl, rfl, rfl, rfl⟩
  · rw [setTurretJointGoal_failure hf] at h
    simp only [Option.some.injEq, Prod.mk.injEq] at h
    rw [← h.1]
  · obtain ⟨v, s2, q1, hv, _, hs1, _⟩ := ikStep_some (setTurretJointGoal_success h).1
    obtain ⟨b, hb, hs2⟩ := getPIDVelocity_some hv
    have := updateBuffer_length hb
    rw [hs1, hs2]
    exact this

theorem tick_floor {pinv : Matrix (Fin 6) (Fin 3) ℚ → Matrix (Fin 3) (Fin 6) ℚ}
    {cfg : Config} {l1 l2 l3 ld : Option Transform} {s s1 : State} {out : List Output}
    (hhz : 1 ≤ cfg.timer_hz)
    (h : setTurretJointGoal pinv cfg l1 l2 l3 ld s = some (s1, out))
    (hq : aimFloor ≤ s.q 2) : aimFloor ≤ s1.q 2 := by
  rcases lookups_cases l1 l2 l3 ld with hf | ⟨t1, t2, t3, td, rfl, rfl, rfl, rfl⟩
  · rw [setTurretJointGoal_failure hf] at h
    simp only [Option.some.injEq, Prod.mk.injEq] at h
    rw [← h.1]
    exact hq
  · obtain ⟨v, s2, q1, _, hi, hs1, _⟩ := ikStep_some (setTurretJointGoal_success h).1
    obtain ⟨_, hq1⟩ := integrate_some hi
    rw [hs1]
    simp only [hq1]
    exact floor_step s.q _ cfg.timer_hz hhz hq

theorem runTicks_floor (pinv : Matrix (Fin 6) (Fin 3) ℚ → Matrix (Fin 3) (Fin 6) ℚ)
    (cfg : Config) (hhz : 1 ≤ cfg.timer_hz) (ls : List Lookups) (s s1 : State)
    (h : runTicks pinv cfg ls s = some s1) (hq : aimFloor ≤ s.q 2) : aimFloor ≤ s1.q 2 := by
  induction ls generalizing s with
  | nil =>
    simp only [runTicks, Option.some.injEq] at h
    rw [← h]
    exact hq
  | cons l ls ih =>
    rw [runTicks] at h
    cases ht : setTurretJointGoal pinv cfg l.l1 l.l2 l.l3 l.ld s with
    | none => simp [ht] at h
    | some r =>
      obtain ⟨sa, outa⟩ := r
      simp only [ht] at h
      exact ih sa h (tick_floor hhz ht hq)

theorem runTicks_returns (pinv : Matrix (Fin 6) (Fin 3) ℚ → Matrix (Fin 3) (Fin 6) ℚ)
    (cfg : Config) (hhz : 1 ≤ cfg.timer_hz) (ls : List Lookups) (s : State)
    (hN : 2 ≤ s.buffer.length) : ∃ s1, runTicks pinv cfg ls s = some s1 := by
  induction ls generalizing s with
  | nil => exact ⟨s, rfl⟩
  | cons l ls ih =>
    obtain ⟨⟨sa, outa⟩, ht⟩ := setTurretJointGoal_returns pinv cfg l.l1 l.l2 l.l3 l.ld s hN hhz
    have hlen := tick_buffer_length ht
    obtain ⟨s1, h1⟩ := ih sa (by omega)
    refine ⟨s1, ?_⟩
    simp only [runTicks, ht, h1]

theorem Jacobian_mulVec_aim (Z1 Y2 X3 t1 t2 t3 : Vec3) (c : ℚ) :
    Matrix.mulVec (Jacobian Z1 Y2 X3 t1 t2 t3) ![0, 0, c] = vstack 0 (c • X3) := by
  funext i
  fin_cases i <;>
    simp [Matrix.mulVec, Matrix.dotProduct, Fin.sum_univ_succ, Jacobian, vstack,
      vec6_val_five, mul_comm]

theorem pinv_solves {J : Matrix (Fin 6) (Fin 3) ℚ} {P : Matrix (Fin 3) (Fin 6) ℚ}
    (hrank : FullColumnRank J) (hp : IsPseudoInverse J P) {y : Vec3} {dx : Vec6}
    (h : Matrix.mulVec J y = dx) : Matrix.mulVec P dx = y := by
  have hinj := Matrix.mulVec_injective_iff_isUnit.mpr (isUnit_gram_of_fullColumnRank hrank)
  apply hinj
  rw [Matrix.mulVec_mulVec, pinv_normal_matrix hp, ← h, Matrix.mulVec_mulVec]

theorem identityPoses_X3 (td : Transform) (s : State) :
    (storePoses identityTransform identityTransform identityTransform td s).X3 = ![1, 0, 0] := by
  funext i
  fin_cases i <;>
    simp [storePoses, column, toRotationMatrix, identityTransform, Matrix.vecHead,
      Matrix.vecTail]

theorem identityPoses_gram_det (td : Transform) (s : State) :
    ((stateJacobian
        (storePoses identityTransform identityTransform identityTransform td s)).transpose
      * stateJacobian
        (storePoses identityTransform identityTransform identityTransform td s)).det ≠ 0 := by
  have hG : (stateJacobian
        (storePoses identityTransform identityTransform identityTransform td s)).transpose
      * stateJacobian (storePoses identityTransform identityTransform identityTransform td s)
      = 1 := by
    ext i j
    fin_cases i <;> fin_cases j <;>
      simp [stateJacobian, storePoses, column, toRotationMatrix, identityTransform, Jacobian,
        vstack, cross, vec6_val_five, Matrix.mul_apply, Fin.sum_univ_succ, Matrix.vecHead,
        Matrix.vecTail]
  rw [hG, Matrix.det_one]
  exact one_ne_zero

theorem overrideScenario_velocity :
    ∃ s2, getPIDVelocity defaultConfig
        (storePoses identityTransform identityTransform identityTransform
          targetBehindTransform (initialState 2))
      = some ((-495 / 100 : ℚ) • ![1, 0, 0], s2) := by
  have h := getPIDVelocity_eq defaultConfig
    (storePoses identityTransform identityTransform identityTransform
      targetBehindTransform (initialState 2)) (by decide) (by decide)
  refine ⟨{ storePoses identityTransform identityTransform identityTransform
      targetBehindTransform (initialState 2) with
    buffer := specPush
      (storePoses identityTransform identityTransform identityTransform
        targetBehindTransform (initialState 2)).buffer
      ((storePoses identityTransform identityTransform identityTransform
          targetBehindTransform (initialState 2)).td_transform
        - (storePoses identityTransform identityTransform identityTransform
          targetBehindTransform (initialState 2)).t3_transform) }, ?_⟩
  rw [h]
  simp only [Option.some.injEq, Prod.mk.injEq, and_true]
  funext i
  fin_cases i
  · simp [storePoses, initialState, defaultConfig, identityTransform, targetBehindTransform,
      specPush, specDerivative, specIntegral, List.replicate]
    norm_num
  · simp [storePoses, initialState, defaultConfig, identityTransform, targetBehindTransform,
      specPush, specDerivative, specIntegral, List.replicate]
  · simp [storePoses, initialState, defaultConfig, identityTransform, targetBehindTransform,
      specPush, specDerivative, specIntegral, List.replicate]

theorem overrideScenario_solution :
    solveJointVelocity leftPseudoInverse
        (stateJacobian (storePoses identityTransform identityTransform identityTransform
          targetBehindTransform (initialState 2)))
        ((-495 / 100 : ℚ) • ![1, 0, 0])
      = ![0, 0, -495 / 100] := by
  have hdet := identityPoses_gram_det targetBehindTransform (initialState 2)
  have hJ := Jacobian_mulVec_aim
    (storePoses identityTransform identityTransform identityTransform
      targetBehindTransform (initialState 2)).Z1
    (storePoses identityTransform identityTransform identityTransform
      targetBehindTransform (initialState 2)).Y2
    (storePoses identityTransform identityTransform identityTransform
      targetBehindTransform (initialState 2)).X3
    (storePoses identityTransform identityTransform identityTransform
      targetBehindTransform (initialState 2)).t1_transform
    (storePoses identityTransform identityTransform identityTransform
      targetBehindTransform (initialState 2)).t2_transform
    (storePoses identityTransform identityTransform identityTransform
      targetBehindTransform (initialState 2)).t3_transform (-495 / 100)
  have hJ1 : Matrix.mulVec
      (stateJacobian (storePoses identityTransform identityTransform identityTransform
        targetBehindTransform (initialState 2))) ![0, 0, -495 / 100]
      = vstack 0 ((-495 / 100 : ℚ) • ![1, 0, 0]) := by
    rw [← identityPoses_X3 targetBehindTransform (initialState 2)]
    exact hJ
  exact pinv_solves (fullColumnRank_of_det_ne_zero hdet)
    (leftPseudoInverse_isPseudoInverse hdet) hJ1

theorem getPIDVelocity_none_of_single (cfg : Config) (s : State)
    (hN : s.buffer.length = 1) : getPIDVelocity cfg s = none := by
  have h1 : 1 ≤ s.buffer.length := by omega
  have hl := length_specPush s.buffer (s.td_transform - s.t3_transform) h1
  have hnone := calculateErrorDt_single
    (specPush s.buffer (s.td_transform - s.t3_transform)) cfg.timer_hz
    (by rw [hl]; exact hN)
  simp only [getPIDVelocity, updateBuffer_eq_specPush _ _ h1, hnone]

theorem tick_none_of_single (pinv : Matrix (Fin 6) (Fin 3) ℚ → Matrix (Fin 3) (Fin 6) ℚ)
    (cfg : Config) (t1 t2 t3 td : Transform) (s : State) (hN : s.buffer.length = 1) :
    setTurretJointGoal pinv cfg (some t1) (some t2) (some t3) (some td) s = none := by
  have hN1 : (storePoses t1 t2 t3 td s).buffer.length = 1 := hN
  have hk : ikStep pinv cfg t1 t2 t3 td s = none := by
    unfold ikStep
    simp only [getPIDVelocity_none_of_single cfg _ hN1]
  simp only [setTurretJointGoal, hk]

/-! ## Settled claims, continued -/

/-- C11: on a tick whose four lookups succeed, with a rate `hz >= 1`, the stored
velocity is the velocity `dq1` left by the joint limiter and the stored position
is `q + dq1 / hz` in every component, `q` being the position before the tick;
with at least two buffer columns the tick does return such a state. -/
theorem successful_tick_integrates
    (pinv : Matrix (Fin 6) (Fin 3) ℚ → Matrix (Fin 3) (Fin 6) ℚ) (cfg : Config)
    (t1 t2 t3 td : Transform) (s : State) (hhz : 1 ≤ cfg.timer_hz) :
    (∀ s1 out,
      setTurretJointGoal pinv cfg (some t1) (some t2) (some t3) (some td) s = some (s1, out) →
      ∃ v s2, getPIDVelocity cfg (storePoses t1 t2 t3 td s) = some (v, s2) ∧
        s1.dq = jointLimiter s.q
          (solveJointVelocity pinv (stateJacobian (storePoses t1 t2 t3 td s)) v) ∧
        ∀ i, s1.q i = s.q i + s1.dq i / (cfg.timer_hz : ℚ)) ∧
    (2 ≤ s.buffer.length →
      ∃ s1 out,
        setTurretJointGoal pinv cfg (some t1) (some t2) (some t3) (some td) s
          = some (s1, out)) := by
  constructor
  · intro s1 out h
    obtain ⟨v, s2, q1, hv, hi, hs1, _⟩ := ikStep_some (setTurretJointGoal_success h).1
    obtain ⟨_, hq1⟩ := integrate_some hi
    refine ⟨v, s2, hv, ?_, ?_⟩
    · rw [hs1]
    · intro i
      rw [hs1]
      simp only [hq1]
  · intro hN
    obtain ⟨⟨s1, out⟩, hr⟩ := setTurretJointGoal_returns pinv cfg (some t1) (some t2)
      (some t3) (some td) s hN hhz
    exact ⟨s1, out, hr⟩

theorem successful_tick_integrates_witness :
    1 ≤ defaultConfig.timer_hz ∧
    ((∀ s1 out,
      setTurretJointGoal leftPseudoInverse defaultConfig (some identityTransform)
        (some identityTransform) (some identityTransform) (some identityTransform)
        (initialState 10) = some (s1, out) →
      ∃ v s2, getPIDVelocity defaultConfig
          (storePoses identityTransform identityTransform identityTransform identityTransform
            (initialState 10)) = some (v, s2) ∧
        s1.dq = jointLimiter (initialState 10).q
          (solveJointVelocity leftPseudoInverse
            (stateJacobian (storePoses identityTransform identityTransform identityTransform
              identityTransform (initialState 10))) v) ∧
        ∀ i, s1.q i = (initialState 10).q i + s1.dq i / (defaultConfig.timer_hz : ℚ)) ∧
    (2 ≤ (initialState 10).buffer.length →
      ∃ s1 out,
        setTurretJointGoal leftPseudoInverse defaultConfig (some identityTransform)
          (some identityTransform) (some identityTransform) (some identityTransform)
          (initialState 10) = some (s1, out))) :=
  ⟨by decide,
    successful_tick_integrates leftPseudoInverse defaultConfig identityTransform
      identityTransform identityTransform identityTransform (initialState 10) (by decide)⟩

/-- C12: a tick publishes the joint-velocity command exactly when all four pose
lookups succeed; the command then carries the two scalars `(dq[0], dq[1])` of the
`dq` computed in that tick, and a tick with a failed lookup emits no command.  A
tick returns whenever a lookup fails, or the buffer has at least two columns and
`hz >= 1`. -/
theorem command_iff_lookups_succeed
    (pinv : Matrix (Fin 6) (Fin 3) ℚ → Matrix (Fin 3) (Fin 6) ℚ) (cfg : Config)
    (l1 l2 l3 ld : Option Transform) (s : State) :
    (∀ s1 out, setTurretJointGoal pinv cfg l1 l2 l3 ld s = some (s1, out) →
      (commandsOf out ≠ [] ↔
        ∃ t1 t2 t3 td, l1 = some t1 ∧ l2 = some t2 ∧ l3 = some t3 ∧ ld = some td) ∧
      ((l1 = none ∨ l2 = none ∨ l3 = none ∨ ld = none) → commandsOf out = []) ∧
      (∀ t1 t2 t3 td, l1 = some t1 → l2 = some t2 → l3 = some t3 → ld = some td →
        commandsOf out = [[s1.dq 0, s1.dq 1]] ∧
        ∃ v s2, getPIDVelocity cfg (storePoses t1 t2 t3 td s) = some (v, s2) ∧
          s1.dq = jointLimiter s.q
            (solveJointVelocity pinv (stateJacobian (storePoses t1 t2 t3 td s)) v))) ∧
    (((l1 = none ∨ l2 = none ∨ l3 = none ∨ ld = none) ∨
        (2 ≤ s.buffer.length ∧ 1 ≤ cfg.timer_hz)) →
      ∃ s1 out, setTurretJointGoal pinv cfg l1 l2 l3 ld s = some (s1, out)) := by
  constructor
  · intro s1 out h
    rcases lookups_cases l1 l2 l3 ld with hf | ⟨t1, t2, t3, td, rfl, rfl, rfl, rfl⟩
    · rw [setTurretJointGoal_failure hf] at h
      simp only [Option.some.injEq, Prod.mk.injEq] at h
      obtain ⟨hs, ho⟩ := h
      have hc : commandsOf out = [] := by
        rw [← ho]
        exact (outputs_of_failure cfg s).1
      refine ⟨?_, fun _ => hc, ?_⟩
      · constructor
        · intro hne
          exact absurd hc hne
        · rintro ⟨t1, t2, t3, td, e1, e2, e3, e4⟩
          rcases hf with h1 | h1 | h1 | h1
          · rw [e1] at h1
            exact absurd h1 (by simp)
          · rw [e2] at h1
            exact absurd h1 (by simp)
          · rw [e3] at h1
            exact absurd h1 (by simp)
          · rw [e4] at h1
            exact absurd h1 (by simp)
      · intro t1 t2 t3 td e1 e2 e3 e4
        rcases hf with h1 | h1 | h1 | h1
        · rw [e1] at h1
          exact absurd h1 (by simp)
        · rw [e2] at h1
          exact absurd h1 (by simp)
        · rw [e3] at h1
          exact absurd h1 (by simp)
        · rw [e4] at h1
          exact absurd h1 (by simp)
    · obtain ⟨hk, ho⟩ := setTurretJointGoal_success h
      have hc : commandsOf out = [[s1.dq 0, s1.dq 1]] := by
        rw [ho]
        exact (outputs_of_success cfg s1).1
      refine ⟨?_, ?_, ?_⟩
      · constructor
        · intro _
          exact ⟨t1, t2, t3, td, rfl, rfl, rfl, rfl⟩
        · intro _
          rw [hc]
          simp
      · intro hf
        rcases hf with h1 | h1 | h1 | h1 <;> exact absurd h1 (by simp)
      · intro u1 u2 u3 ud e1 e2 e3 e4
        cases e1
        cases e2
        cases e3
        cases e4
        obtain ⟨v, s2, q1, hv, _, hs1, _⟩ := ikStep_some hk
        refine ⟨hc, v, s2, hv, ?_⟩
        rw [hs1]
  · rintro (hf | ⟨hN, hhz⟩)
    · exact ⟨_, _, setTurretJointGoal_failure hf⟩
    · obtain ⟨⟨s1, out⟩, hr⟩ := setTurretJointGoal_returns pinv cfg l1 l2 l3 ld s hN hhz
      exact ⟨s1, out, hr⟩

theorem command_iff_lookups_succeed_witness :
    ∃ s1 out,
      setTurretJointGoal leftPseudoInverse defaultConfig (some identityTransform)
        (some identityTransform) (some identityTransform) (some identityTransform)
        (initialState 10) = some (s1, out) ∧
      commandsOf out = [[s1.dq 0, s1.dq 1]] := by
  have T := command_iff_lookups_succeed leftPseudoInverse defaultConfig
    (some identityTransform) (some identityTransform) (some identityTransform)
    (some identityTransform) (initialState 10)
  obtain ⟨s1, out, h⟩ := T.2 (Or.inr ⟨by decide, by decide⟩)
  exact ⟨s1, out, h, ((T.1 s1 out h).2.2 _ _ _ _ rfl rfl rfl rfl).1⟩

/-- C13: every tick, with the lookups succeeding or failing, publishes exactly
one aim-joint state, carrying `q[2]`, and publishes a pan/tilt state, carrying
`(q[0], q[1])`, exactly when simulation is enabled; `q` is the position at the
end of the tick: the position before the tick when a lookup failed, the
integrated position when all succeeded.  A tick returns whenever a lookup fails,
or the buffer has at least two columns and `hz >= 1`. -/
theorem joint_states_published_every_tick
    (pinv : Matrix (Fin 6) (Fin 3) ℚ → Matrix (Fin 3) (Fin 6) ℚ) (cfg : Config)
    (l1 l2 l3 ld : Option Transform) (s : State) :
    (∀ s1 out, setTurretJointGoal pinv cfg l1 l2 l3 ld s = some (s1, out) →
      aimJointStatesOf out = [[s1.q 2]] ∧
      panTiltStatesOf out
        = (if cfg.turret_simulate_joint_states then [[s1.q 0, s1.q 1]] else []) ∧
      ((l1 = none ∨ l2 = none ∨ l3 = none ∨ ld = none) → s1.q = s.q) ∧
      ((∃ t1 t2 t3 td, l1 = some t1 ∧ l2 = some t2 ∧ l3 = some t3 ∧ ld = some td) →
        ∀ i, s1.q i = s.q i + s1.dq i / (cfg.timer_hz : ℚ))) ∧
    (((l1 = none ∨ l2 = none ∨ l3 = none ∨ ld = none) ∨
        (2 ≤ s.buffer.length ∧ 1 ≤ cfg.timer_hz)) →
      ∃ s1 out, setTurretJointGoal pinv cfg l1 l2 l3 ld s = some (s1, out)) := by
  constructor
  · intro s1 out h
    rcases lookups_cases l1 l2 l3 ld with hf | ⟨t1, t2, t3, td, rfl, rfl, rfl, rfl⟩
    · rw [setTurretJointGoal_failure hf] at h
      simp only [Option.some.injEq, Prod.mk.injEq] at h
      obtain ⟨hs, ho⟩ := h
      subst hs
      subst ho
      refine ⟨(outputs_of_failure cfg s).2.1, (outputs_of_failure cfg s).2.2,
        fun _ => rfl, ?_⟩
      rintro ⟨t1, t2, t3, td, e1, e2, e3, e4⟩
      rcases hf with h1 | h1 | h1 | h1
      · rw [e1] at h1
        exact absurd h1 (by simp)
      · rw [e2] at h1
        exact absurd h1 (by simp)
      · rw [e3] at h1
        exact absurd h1 (by simp)
      · rw [e4] at h1
        exact absurd h1 (by simp)
    · obtain ⟨hk, ho⟩ := setTurretJointGoal_success h
      subst ho
      refine ⟨(outputs_of_success cfg s1).2.1, (outputs_of_success cfg s1).2.2, ?_, ?_⟩
      · intro hf
        rcases hf with h1 | h1 | h1 | h1 <;> exact absurd h1 (by simp)
      · intro _ i
        obtain ⟨v, s2, q1, _, hi, hs1, _⟩ := ikStep_some hk
        obtain ⟨_, hq1⟩ := integrate_some hi
        rw [hs1]
        simp only [hq1]
  · rintro (hf | ⟨hN, hhz⟩)
    · exact ⟨_, _, setTurretJointGoal_failure hf⟩
    · obtain ⟨⟨s1, out⟩, hr⟩ := setTurretJointGoal_returns pinv cfg l1 l2 l3 ld s hN hhz
      exact ⟨s1, out, hr⟩

theorem joint_states_published_every_tick_witness :
    ∃ s1 out,
      setTurretJointGoal leftPseudoInverse defaultConfig (some identityTransform)
        (some identityTransform) (some identityTransform) (some identityTransform)
        (initialState 10) = some (s1, out) ∧
      aimJointStatesOf out = [[s1.q 2]] ∧
      panTiltStatesOf out
        = (if defaultConfig.turret_simulate_joint_states then [[s1.q 0, s1.q 1]] else []) := by
  have T := joint_states_published_every_tick leftPseudoInverse defaultConfig
    (some identityTransform) (some identityTransform) (some identityTransform)
    (some identityTransform) (initialState 10)
  obtain ⟨s1, out, h⟩ := T.2 (Or.inr ⟨by decide, by decide⟩)
  exact ⟨s1, out, h, (T.1 s1 out h).1, (T.1 s1 out h).2.1⟩

/-- C14: `q` is not fed back into the kinematics.  For a state `s` and the state
that differs from it in `q` only, the same four poses give the same Jacobian and
the same PID velocity, and two successful ticks leave states that agree in every
field other than `q` and `dq` (so the same updated buffer), computed from one and
the same pre-limiter `dq`, hence with equal `dq[0]`, `dq[1]` and equal published
commands. -/
theorem q_not_fed_back
    (pinv : Matrix (Fin 6) (Fin 3) ℚ → Matrix (Fin 3) (Fin 6) ℚ) (cfg : Config)
    (t1 t2 t3 td : Transform) (s : State) (qb : Vec3) :
    stateJacobian (storePoses t1 t2 t3 td s)
      = stateJacobian (storePoses t1 t2 t3 td { s with q := qb }) ∧
    (getPIDVelocity cfg (storePoses t1 t2 t3 td s)).map Prod.fst
      = (getPIDVelocity cfg (storePoses t1 t2 t3 td { s with q := qb })).map Prod.fst ∧
    ∀ sa outa sb outb,
      setTurretJointGoal pinv cfg (some t1) (some t2) (some t3) (some td) s
        = some (sa, outa) →
      setTurretJointGoal pinv cfg (some t1) (some t2) (some t3) (some td) { s with q := qb }
        = some (sb, outb) →
      (∃ v s2, getPIDVelocity cfg (storePoses t1 t2 t3 td s) = some (v, s2) ∧
        sa.dq = jointLimiter s.q
          (solveJointVelocity pinv (stateJacobian (storePoses t1 t2 t3 td s)) v) ∧
        sb.dq = jointLimiter qb
          (solveJointVelocity pinv (stateJacobian (storePoses t1 t2 t3 td s)) v)) ∧
      sa.buffer = sb.buffer ∧
      sb = { sa with q := sb.q, dq := sb.dq } ∧
      sa.dq 0 = sb.dq 0 ∧ sa.dq 1 = sb.dq 1 ∧
      commandsOf outa = commandsOf outb := by
  have hpid := getPIDVelocity_with_q cfg (storePoses t1 t2 t3 td s) qb
  refine ⟨rfl, ?_, ?_⟩
  · have hst : storePoses t1 t2 t3 td { s with q := qb }
        = { storePoses t1 t2 t3 td s with q := qb } := rfl
    rw [hst, hpid, Option.map_map]
    rfl
  · intro sa outa sb outb ha hb
    obtain ⟨hka, hoa⟩ := setTurretJointGoal_success ha
    obtain ⟨hkb, hob⟩ := setTurretJointGoal_success hb
    obtain ⟨va, s2a, q1a, hva, _, hsa, _⟩ := ikStep_some hka
    obtain ⟨vb, s2b, q1b, hvb, _, hsb, _⟩ := ikStep_some hkb
    have hst : storePoses t1 t2 t3 td { s with q := qb }
        = { storePoses t1 t2 t3 td s with q := qb } := rfl
    rw [hst, hpid, hva] at hvb
    simp only [Option.map_some', Option.some.injEq, Prod.mk.injEq] at hvb
    obtain ⟨hv, hs2⟩ := hvb
    subst hv
    subst hs2
    have hdq0 : sa.dq 0 = sb.dq 0 := by
      rw [hsa, hsb]
      simp only []
      rw [(jointLimiter_zero_one _ _).1, (jointLimiter_zero_one _ _).1]
      rfl
    have hdq1 : sa.dq 1 = sb.dq 1 := by
      rw [hsa, hsb]
      simp only []
      rw [(jointLimiter_zero_one _ _).2, (jointLimiter_zero_one _ _).2]
      rfl
    refine ⟨⟨va, s2a, hva, ?_, ?_⟩, ?_, ?_, hdq0, hdq1, ?_⟩
    · rw [hsa]
    · rw [hsb]
      rfl
    · rw [hsa, hsb]
    · rw [hsa, hsb]
    · rw [hoa, hob, (outputs_of_success cfg sa).1, (outputs_of_success cfg sb).1, hdq0, hdq1]

theorem q_not_fed_back_witness :
    ∃ sa outa sb outb,
      setTurretJointGoal leftPseudoInverse defaultConfig (some identityTransform)
        (some identityTransform) (some identityTransform) (some identityTransform)
        (initialState 10) = some (sa, outa) ∧
      setTurretJointGoal leftPseudoInverse defaultConfig (some identityTransform)
        (some identityTransform) (some identityTransform) (some identityTransform)
        { initialState 10 with q := ![1, 2, 3] } = some (sb, outb) ∧
      sa.buffer = sb.buffer ∧ sa.dq 0 = sb.dq 0 ∧ sa.dq 1 = sb.dq 1 ∧
      commandsOf outa = commandsOf outb := by
  obtain ⟨⟨sa, outa⟩, ha⟩ := setTurretJointGoal_returns leftPseudoInverse defaultConfig
    (some identityTransform) (some identityTransform) (some identityTransform)
    (some identityTransform) (initialState 10) (by decide) (by decide)
  obtain ⟨⟨sb, outb⟩, hb⟩ := setTurretJointGoal_returns leftPseudoInverse defaultConfig
    (some identityTransform) (some identityTransform) (some identityTransform)
    (some identityTransform) { initialState 10 with q := ![1, 2, 3] } (by decide) (by decide)
  have T := (q_not_fed_back leftPseudoInverse defaultConfig identityTransform
    identityTransform identityTransform identityTransform (initialState 10) ![1, 2, 3]).2.2
    sa outa sb outb ha hb
  exact ⟨sa, outa, sb, outb, ha, hb, T.2.1, T.2.2.2.1, T.2.2.2.2.1, T.2.2.2.2.2⟩

/-- C15: starting from the zero-filled buffer of `N >= 1` columns, pushing
`v_1, ..., v_k` with `updateBuffer` leaves `N` columns, column `j` (0-based) being
`v_(k-N+1+j)` when `k-N+1+j >= 1` and the zero vector otherwise; once `k >= N` the
buffer is the list of the last `N` pushed values, oldest first, whatever `N`
columns it started from. -/
theorem pushAll_from_zero (N : Nat) (vs : List Vec3) (hN : 1 ≤ N) :
    ∃ b, pushAll (List.replicate N 0) vs = some b ∧ b.length = N ∧
      (∀ j, j < N →
        b[j]? = if N ≤ vs.length + j then vs[vs.length + j - N]? else some 0) ∧
      (N ≤ vs.length → b = vs.drop (vs.length - N)) ∧
      ∀ b0 : Buffer, b0.length = N → N ≤ vs.length →
        pushAll b0 vs = some (vs.drop (vs.length - N)) := by
  have hgen : ∀ b0 : Buffer, b0.length = N → N ≤ vs.length →
      (b0 ++ vs).drop vs.length = vs.drop (vs.length - N) := by
    intro b0 hb hk
    rw [List.drop_append_eq_append_drop, hb, List.drop_of_length_le (by omega)]
    rfl
  have hrep : (List.replicate N (0 : Vec3)).length = N := List.length_replicate _ _
  refine ⟨((List.replicate N 0) ++ vs).drop vs.length,
    pushAll_eq_drop vs _ (by rw [hrep]; exact hN), ?_, ?_, ?_, ?_⟩
  · simp
  · intro j hj
    rw [List.getElem?_drop]
    by_cases hc : N ≤ vs.length + j
    · rw [if_pos hc, List.getElem?_append_right (by rw [hrep]; exact hc), hrep]
    · rw [if_neg hc, List.getElem?_append_left (by rw [hrep]; omega),
        List.getElem?_replicate]
      simp
      omega
  · intro hk
    exact hgen _ hrep hk
  · intro b0 hb hk
    rw [pushAll_eq_drop vs b0 (by omega), hgen b0 hb hk]

theorem pushAll_from_zero_witness :
    1 ≤ 2 ∧
    ∃ b, pushAll (List.replicate 2 0) [![1, 0, 0], ![2, 0, 0], ![3, 0, 0]] = some b ∧
      b.length = 2 ∧
      (∀ j, j < 2 →
        b[j]? = if 2 ≤ ([![1, 0, 0], ![2, 0, 0], ![3, 0, 0]] : List Vec3).length + j
          then ([![1, 0, 0], ![2, 0, 0], ![3, 0, 0]] : List Vec3)[
            ([![1, 0, 0], ![2, 0, 0], ![3, 0, 0]] : List Vec3).length + j - 2]?
          else some 0) ∧
      (2 ≤ ([![1, 0, 0], ![2, 0, 0], ![3, 0, 0]] : List Vec3).length →
        b = ([![1, 0, 0], ![2, 0, 0], ![3, 0, 0]] : List Vec3).drop
          (([![1, 0, 0], ![2, 0, 0], ![3, 0, 0]] : List Vec3).length - 2)) ∧
      ∀ b0 : Buffer, b0.length = 2 →
        2 ≤ ([![1, 0, 0], ![2, 0, 0], ![3, 0, 0]] : List Vec3).length →
        pushAll b0 [![1, 0, 0], ![2, 0, 0], ![3, 0, 0]]
          = some (([![1, 0, 0], ![2, 0, 0], ![3, 0, 0]] : List Vec3).drop
              (([![1, 0, 0], ![2, 0, 0], ![3, 0, 0]] : List Vec3).length - 2)) :=
  ⟨by decide, pushAll_from_zero 2 [![1, 0, 0], ![2, 0, 0], ![3, 0, 0]] (by decide)⟩

/-- C16: with a rate `hz >= 1`, the divisor `dt * (N - 1)` of `calculateErrorDt`
is nonzero and the function returns a value when the buffer has `N >= 2`
columns; with `N = 1` the divisor is zero, the function has no value, and
`getPIDVelocity`, which calls it without a check, has none either.  So the
function is defined exactly for `N >= 2`. -/
theorem calculateErrorDt_division (buffer : Buffer) (hz : ℤ) (hhz : 1 ≤ hz) :
    (2 ≤ buffer.length →
      errorDtDivisor (1 / (hz : ℚ)) buffer.length ≠ 0 ∧
      ∃ r, calculateErrorDt buffer hz = some r) ∧
    (buffer.length = 1 →
      errorDtDivisor (1 / (hz : ℚ)) buffer.length = 0 ∧
      calculateErrorDt buffer hz = none ∧
      ∀ (cfg : Config) (s : State), cfg.timer_hz = hz → s.buffer = buffer →
        getPIDVelocity cfg s = none) ∧
    ((∃ r, calculateErrorDt buffer hz = some r) ↔ 2 ≤ buffer.length) := by
  have hsome : 2 ≤ buffer.length → ∃ r, calculateErrorDt buffer hz = some r :=
    fun hN => ⟨_, calculateErrorDt_eq buffer hz hN hhz⟩
  refine ⟨fun hN => ⟨errorDtDivisor_ne_zero hz buffer.length hN hhz, hsome hN⟩, ?_, ?_⟩
  · intro hN
    refine ⟨by simp [errorDtDivisor, hN], calculateErrorDt_single buffer hz hN, ?_⟩
    intro cfg s hcfg hs
    have h1 : 1 ≤ s.buffer.length := by rw [hs]; omega
    have hl := length_specPush s.buffer (s.td_transform - s.t3_transform) h1
    have hnone := calculateErrorDt_single
      (specPush s.buffer (s.td_transform - s.t3_transform)) cfg.timer_hz
      (by rw [hl, hs]; exact hN)
    simp only [getPIDVelocity, updateBuffer_eq_specPush _ _ h1, hnone]
  · constructor
    · rintro ⟨r, hr⟩
      by_contra hlt
      have hcases : buffer.length = 0 ∨ buffer.length = 1 := by omega
      rcases hcases with h0 | h1
      · rw [calculateErrorDt_empty buffer hz h0] at hr
        exact absurd hr (by simp)
      · rw [calculateErrorDt_single buffer hz h1] at hr
        exact absurd hr (by simp)
    · exact hsome

theorem calculateErrorDt_division_witness :
    (1 : ℤ) ≤ 10 ∧
    (([![1, 2, 3]] : Buffer).length = 1 →
      errorDtDivisor (1 / ((10 : ℤ) : ℚ)) ([![1, 2, 3]] : Buffer).length = 0 ∧
      calculateErrorDt [![1, 2, 3]] 10 = none ∧
      ∀ (cfg : Config) (s : State), cfg.timer_hz = 10 → s.buffer = [![1, 2, 3]] →
        getPIDVelocity cfg s = none) :=
  ⟨by decide, (calculateErrorDt_division [![1, 2, 3]] 10 (by decide)).2.1⟩

/-- C17 as stated fails: at `hz = 3` the timer period is 333 ms, which is not
`1 / 3` of a second. -/
theorem timer_period_differs_at_three :
    ¬ ∃ ms : ℤ, timerPeriodMs 3 = some ms ∧ (ms : ℚ) / 1000 = 1 / ((3 : ℤ) : ℚ) := by
  rintro ⟨ms, hms, heq⟩
  rw [timerPeriodMs_eq 3 (by decide)] at hms
  have h333 : ms = 333 := by
    have := Option.some.inj hms
    rw [← this]
    decide
  subst h333
  norm_num at heq

/-- C17, amended: for a rate `hz >= 1`, `robot_init_timers` schedules the control
loop every `floor(1000 / hz)` whole milliseconds; that period is at most `1 / hz`
seconds, falls short of it by less than one millisecond, and equals the
`dt = 1 / hz` used by `calculateErrorDt`, `calculateErrorIntegral` and the
integration step exactly when `hz` divides 1000. -/
theorem timer_period_whole_milliseconds (hz : ℤ) (hhz : 1 ≤ hz) :
    ∃ ms : ℤ, timerPeriodMs hz = some ms ∧ ms = 1000 / hz ∧
      timeStep hz = some (1 / (hz : ℚ)) ∧
      (ms : ℚ) / 1000 ≤ 1 / (hz : ℚ) ∧
      1 / (hz : ℚ) - (ms : ℚ) / 1000 < 1 / 1000 ∧
      ((ms : ℚ) / 1000 = 1 / (hz : ℚ) ↔ hz ∣ 1000) := by
  have h0 : ¬ hz = 0 := by omega
  have hpos : (0 : ℚ) < (hz : ℚ) := by exact_mod_cast hhz
  have hdiv : hz * (1000 / hz) + 1000 % hz = 1000 := Int.ediv_add_emod 1000 hz
  have hr0 : 0 ≤ 1000 % hz := Int.emod_nonneg _ h0
  have hr1 : 1000 % hz < hz := Int.emod_lt_of_pos _ (by omega)
  have hdivQ : (hz : ℚ) * ((1000 / hz : ℤ) : ℚ) + ((1000 % hz : ℤ) : ℚ) = 1000 := by
    exact_mod_cast hdiv
  have hr0Q : (0 : ℚ) ≤ ((1000 % hz : ℤ) : ℚ) := by exact_mod_cast hr0
  have hr1Q : ((1000 % hz : ℤ) : ℚ) < (hz : ℚ) := by exact_mod_cast hr1
  refine ⟨1000 / hz, timerPeriodMs_eq hz hhz, rfl, timeStep_of_pos hz hhz, ?_, ?_, ?_⟩
  · rw [div_le_div_iff₀ (by norm_num) hpos]
    linarith
  · rw [div_sub_div _ _ (ne_of_gt hpos) (by norm_num), div_lt_div_iff₀ (by positivity)
      (by norm_num)]
    nlinarith
  · rw [div_eq_div_iff (by norm_num) (ne_of_gt hpos), Int.dvd_iff_emod_eq_zero]
    constructor
    · intro h
      have : ((1000 % hz : ℤ) : ℚ) = 0 := by linarith
      exact_mod_cast this
    · intro h
      rw [h] at hdivQ
      simp at hdivQ
      linarith

theorem timer_period_whole_milliseconds_witness :
    (1 : ℤ) ≤ 3 ∧
    ∃ ms : ℤ, timerPeriodMs 3 = some ms ∧ ms = 1000 / 3 ∧
      timeStep 3 = some (1 / ((3 : ℤ) : ℚ)) ∧
      (ms : ℚ) / 1000 ≤ 1 / ((3 : ℤ) : ℚ) ∧
      1 / ((3 : ℤ) : ℚ) - (ms : ℚ) / 1000 < 1 / 1000 ∧
      ((ms : ℚ) / 1000 = 1 / ((3 : ℤ) : ℚ) ↔ (3 : ℤ) ∣ 1000) :=
  ⟨by decide, timer_period_whole_milliseconds 3 (by decide)⟩

/-- C18 as stated fails.  In the arithmetic of the code, lines 182-189 at the
`float` values `q[2] = 0.25`, `dq[2] = -1` and `hz = 1` start with `q[2] >= 0.05`
and end with `q[2] = 3355443 / 2^26`, below `0.05`.  And on a buffer of one
column a successful tick has no value: the derivative is `0 / 0`. -/
theorem aim_below_floor_in_float :
    (5 / 100 : ℚ) ≤ (![0, 0, 1 / 4] : Vec3) 2 ∧
    (integrateFloat ![0, 0, 1 / 4] (jointLimiterFloat ![0, 0, 1 / 4] ![0, 0, -1]) 1).map
        (fun q1 => q1 2) = some (3355443 / 67108864) ∧
    (3355443 / 67108864 : ℚ) < 5 / 100 ∧
    setTurretJointGoal leftPseudoInverse defaultConfig (some identityTransform)
      (some identityTransform) (some identityTransform) (some identityTransform)
      (initialState 1) = none := by
  refine ⟨?_, ?_, by norm_num, ?_⟩
  · simp
    norm_num
  · rw [jointLimiterFloat_quarter, integrateFloat_quarter]
    simp
  · exact tick_none_of_single leftPseudoInverse defaultConfig identityTransform
      identityTransform identityTransform identityTransform (initialState 1) (by decide)

/-- C18, amended: in exact arithmetic and with a rate `hz >= 1`, a failed tick
returns the state unchanged, and a successful tick (any poses, any computed `dq`)
on a buffer of at least two columns returns a state with `q[2] >= 0.05` whenever
`q[2] >= 0.05` held before; hence every sequence of ticks from the initial state
`q = (0, 0, 0.45)` with at least two buffer columns runs to a state with
`q[2] >= 0.05`.  On a buffer of one column a successful tick has no value, and in
the `float` arithmetic of the code the bound fails by a rounding error at
`q[2] = 0.25`, `dq[2] = -1`, `hz = 1`. -/
theorem aim_never_below_floor
    (pinv : Matrix (Fin 6) (Fin 3) ℚ → Matrix (Fin 3) (Fin 6) ℚ) (cfg : Config)
    (hhz : 1 ≤ cfg.timer_hz) :
    (∀ (l1 l2 l3 ld : Option Transform) (s : State),
      (l1 = none ∨ l2 = none ∨ l3 = none ∨ ld = none) →
      ∃ out, setTurretJointGoal pinv cfg l1 l2 l3 ld s = some (s, out)) ∧
    (∀ (t1 t2 t3 td : Transform) (s : State), 2 ≤ s.buffer.length →
      ∃ s1 out,
        setTurretJointGoal pinv cfg (some t1) (some t2) (some t3) (some td) s
          = some (s1, out) ∧
        (5 / 100 ≤ s.q 2 → 5 / 100 ≤ s1.q 2)) ∧
    (∀ N : Nat, (initialState N).q = ![0, 0, 45 / 100]) ∧
    (∀ (N : Nat) (ls : List Lookups), 2 ≤ N →
      ∃ s, runTicks pinv cfg ls (initialState N) = some s ∧ 5 / 100 ≤ s.q 2) ∧
    (∀ (t1 t2 t3 td : Transform) (s : State), s.buffer.length = 1 →
      setTurretJointGoal pinv cfg (some t1) (some t2) (some t3) (some td) s = none) ∧
    (integrateFloat ![0, 0, 1 / 4] (jointLimiterFloat ![0, 0, 1 / 4] ![0, 0, -1]) 1).map
        (fun q1 => q1 2) = some (3355443 / 67108864) := by
  refine ⟨?_, ?_, fun _ => rfl, ?_, ?_, ?_⟩
  · intro l1 l2 l3 ld s hf
    exact ⟨_, setTurretJointGoal_failure hf⟩
  · intro t1 t2 t3 td s hN
    obtain ⟨⟨s1, out⟩, h⟩ := setTurretJointGoal_returns pinv cfg (some t1) (some t2)
      (some t3) (some td) s hN hhz
    exact ⟨s1, out, h, fun hq => tick_floor hhz h hq⟩
  · intro N ls hN
    have hlen : 2 ≤ (initialState N).buffer.length := by
      simpa [initialState] using hN
    obtain ⟨s, hs⟩ := runTicks_returns pinv cfg hhz ls (initialState N) hlen
    have h0 : aimFloor ≤ (initialState N).q 2 := by
      simp [initialState, aimFloor]
      norm_num
    exact ⟨s, hs, runTicks_floor pinv cfg hhz ls _ s hs h0⟩
  · intro t1 t2 t3 td s hN
    exact tick_none_of_single pinv cfg t1 t2 t3 td s hN
  · rw [jointLimiterFloat_quarter, integrateFloat_quarter]
    simp

theorem aim_never_below_floor_witness :
    1 ≤ defaultConfig.timer_hz ∧
    (∀ (N : Nat) (ls : List Lookups), 2 ≤ N →
      ∃ s, runTicks leftPseudoInverse defaultConfig ls (initialState N) = some s ∧
        5 / 100 ≤ s.q 2) :=
  ⟨by decide, (aim_never_below_floor leftPseudoInverse defaultConfig (by decide)).2.2.2.1⟩

/-- C20: when the Jacobian has full column rank 3 and the PID velocity is
parallel to the aim axis, `v = c * X3`, the solution before the limiter is
exactly `dq = (0, 0, c)`: `J * (0, 0, c) = [0, 0, 0, c * X3] = dx`, so the residual
is zero, and the pan and tilt rates are zero, also after the limiter. -/
theorem aim_axis_velocity_solution
    (pinv : Matrix (Fin 6) (Fin 3) ℚ → Matrix (Fin 3) (Fin 6) ℚ)
    (Z1 Y2 X3 t1 t2 t3 : Vec3) (c : ℚ)
    (hrank : FullColumnRank (Jacobian Z1 Y2 X3 t1 t2 t3))
    (hpinv : IsPseudoInverse (Jacobian Z1 Y2 X3 t1 t2 t3)
      (pinv (Jacobian Z1 Y2 X3 t1 t2 t3))) :
    solveJointVelocity pinv (Jacobian Z1 Y2 X3 t1 t2 t3) (c • X3) = ![0, 0, c] ∧
    Matrix.mulVec (Jacobian Z1 Y2 X3 t1 t2 t3) ![0, 0, c] = vstack 0 (c • X3) ∧
    Matrix.mulVec (Jacobian Z1 Y2 X3 t1 t2 t3)
        (solveJointVelocity pinv (Jacobian Z1 Y2 X3 t1 t2 t3) (c • X3))
      - vstack 0 (c • X3) = 0 ∧
    ∀ q : Vec3,
      jointLimiter q (solveJointVelocity pinv (Jacobian Z1 Y2 X3 t1 t2 t3) (c • X3)) 0 = 0 ∧
      jointLimiter q (solveJointVelocity pinv (Jacobian Z1 Y2 X3 t1 t2 t3) (c • X3)) 1 = 0 := by
  have hJ := Jacobian_mulVec_aim Z1 Y2 X3 t1 t2 t3 c
  have hsol : solveJointVelocity pinv (Jacobian Z1 Y2 X3 t1 t2 t3) (c • X3) = ![0, 0, c] :=
    pinv_solves hrank hpinv hJ
  refine ⟨hsol, hJ, ?_, ?_⟩
  · rw [hsol, hJ, sub_self]
  · intro q
    rw [(jointLimiter_zero_one _ _).1, (jointLimiter_zero_one _ _).2, hsol]
    simp

theorem aim_axis_velocity_solution_witness :
    FullColumnRank (Jacobian ![0, 0, 1] ![0, 1, 0] ![1, 0, 0] ![0, 0, 0] ![0, 0, 2 / 10]
      ![3 / 10, 0, 5 / 10]) ∧
    IsPseudoInverse (Jacobian ![0, 0, 1] ![0, 1, 0] ![1, 0, 0] ![0, 0, 0] ![0, 0, 2 / 10]
        ![3 / 10, 0, 5 / 10])
      (leftPseudoInverse (Jacobian ![0, 0, 1] ![0, 1, 0] ![1, 0, 0] ![0, 0, 0]
        ![0, 0, 2 / 10] ![3 / 10, 0, 5 / 10])) ∧
    solveJointVelocity leftPseudoInverse
        (Jacobian ![0, 0, 1] ![0, 1, 0] ![1, 0, 0] ![0, 0, 0] ![0, 0, 2 / 10]
          ![3 / 10, 0, 5 / 10])
        ((7 : ℚ) • ![1, 0, 0]) = ![0, 0, 7] :=
  ⟨fullColumnRank_of_det_ne_zero exampleJacobian_gram_det,
    leftPseudoInverse_isPseudoInverse exampleJacobian_gram_det,
    (aim_axis_velocity_solution leftPseudoInverse ![0, 0, 1] ![0, 1, 0] ![1, 0, 0] ![0, 0, 0]
      ![0, 0, 2 / 10] ![3 / 10, 0, 5 / 10] 7
      (fullColumnRank_of_det_ne_zero exampleJacobian_gram_det)
      (leftPseudoInverse_isPseudoInverse exampleJacobian_gram_det)).1⟩

/-- C19: on a successful tick in which the limiter overrides `dq[2]`, that is
`q[2] + dq[2] < 0.05` for the velocity before the limiter, the stored position is
`q1[2] = q[2] + (0.05 - q[2]) / hz`, so `q1[2] - 0.05 = (1 - 1/hz) * (q[2] - 0.05)`:
the aim joint covers `1/hz` of the distance to the floor and lands on `0.05` only
if `hz = 1` or `q[2] = 0.05`; with `hz = 10` and `q[2] = 0.1` it gives `0.095`. -/
theorem override_moves_fraction
    (pinv : Matrix (Fin 6) (Fin 3) ℚ → Matrix (Fin 3) (Fin 6) ℚ) (cfg : Config)
    (t1 t2 t3 td : Transform) (s s1 s2 : State) (out : List Output) (v : Vec3)
    (h : setTurretJointGoal pinv cfg (some t1) (some t2) (some t3) (some td) s
      = some (s1, out))
    (hv : getPIDVelocity cfg (storePoses t1 t2 t3 td s) = some (v, s2))
    (hov : s.q 2 + solveJointVelocity pinv (stateJacobian (storePoses t1 t2 t3 td s)) v 2
      < 5 / 100) :
    s1.dq 2 = 5 / 100 - s.q 2 ∧
    s1.q 2 = s.q 2 + (5 / 100 - s.q 2) / (cfg.timer_hz : ℚ) ∧
    s1.q 2 - 5 / 100 = (1 - 1 / (cfg.timer_hz : ℚ)) * (s.q 2 - 5 / 100) ∧
    (s1.q 2 = 5 / 100 ↔ cfg.timer_hz = 1 ∨ s.q 2 = 5 / 100) ∧
    (cfg.timer_hz = 10 → s.q 2 = 1 / 10 → s1.q 2 = 95 / 1000) := by
  obtain ⟨v1, s3, q1, hv1, hi, hs1, _⟩ := ikStep_some (setTurretJointGoal_success h).1
  rw [hv] at hv1
  simp only [Option.some.injEq, Prod.mk.injEq] at hv1
  obtain ⟨hvv, hss⟩ := hv1
  subst hvv
  subst hss
  obtain ⟨hz0, hq1⟩ := integrate_some hi
  have hzQ : (cfg.timer_hz : ℚ) ≠ 0 := by exact_mod_cast hz0
  have hlim : jointLimiter s.q
      (solveJointVelocity pinv (stateJacobian (storePoses t1 t2 t3 td s)) v) 2
      = 5 / 100 - s.q 2 := by
    have hov1 : s.q 2
        + solveJointVelocity pinv (stateJacobian (storePoses t1 t2 t3 td s)) v 2
        < aimFloor := by
      unfold aimFloor
      exact hov
    unfold jointLimiter
    rw [if_pos hov1]
    simp [Function.update, aimFloor]
  have hdq : s1.dq 2 = 5 / 100 - s.q 2 := by
    rw [hs1]
    exact hlim
  have hq : s1.q 2 = s.q 2 + (5 / 100 - s.q 2) / (cfg.timer_hz : ℚ) := by
    rw [hs1]
    simp only [hq1]
    rw [hlim]
  have hfrac : s1.q 2 - 5 / 100 = (1 - 1 / (cfg.timer_hz : ℚ)) * (s.q 2 - 5 / 100) := by
    rw [hq]
    field_simp
    ring
  refine ⟨hdq, hq, hfrac, ?_, ?_⟩
  · constructor
    · intro he
      have h0 : (1 - 1 / (cfg.timer_hz : ℚ)) * (s.q 2 - 5 / 100) = 0 := by
        rw [← hfrac, he, sub_self]
      rcases mul_eq_zero.mp h0 with h1 | h1
      · left
        have h2 : (cfg.timer_hz : ℚ) = 1 := by
          field_simp at h1
          linarith
        exact_mod_cast h2
      · right
        linarith
    · rintro (h1 | h1)
      · have h2 : (cfg.timer_hz : ℚ) = 1 := by exact_mod_cast h1
        rw [hq, h2]
        ring
      · rw [hq, h1]
        simp
  · intro h10 hq2
    have h2 : (cfg.timer_hz : ℚ) = 10 := by exact_mod_cast h10
    rw [hq, h2, hq2]
    norm_num

theorem override_moves_fraction_witness :
    ∃ (s1 s2 : State) (out : List Output) (v : Vec3),
      setTurretJointGoal leftPseudoInverse defaultConfig (some identityTransform)
        (some identityTransform) (some identityTransform) (some targetBehindTransform)
        (initialState 2) = some (s1, out) ∧
      getPIDVelocity defaultConfig
        (storePoses identityTransform identityTransform identityTransform
          targetBehindTransform (initialState 2)) = some (v, s2) ∧
      (initialState 2).q 2
        + solveJointVelocity leftPseudoInverse
            (stateJacobian (storePoses identityTransform identityTransform identityTransform
              targetBehindTransform (initialState 2))) v 2 < 5 / 100 ∧
      s1.dq 2 = 5 / 100 - (initialState 2).q 2 ∧
      s1.q 2 = (initialState 2).q 2
        + (5 / 100 - (initialState 2).q 2) / (defaultConfig.timer_hz : ℚ) := by
  obtain ⟨⟨s1, out⟩, h⟩ := setTurretJointGoal_returns leftPseudoInverse defaultConfig
    (some identityTransform) (some identityTransform) (some identityTransform)
    (some targetBehindTransform) (initialState 2) (by decide) (by decide)
  obtain ⟨s2, hv⟩ := overrideScenario_velocity
  have hov : (initialState 2).q 2
      + solveJointVelocity leftPseudoInverse
          (stateJacobian (storePoses identityTransform identityTransform identityTransform
            targetBehindTransform (initialState 2))) ((-495 / 100 : ℚ) • ![1, 0, 0]) 2
      < 5 / 100 := by
    rw [overrideScenario_solution]
    simp [initialState]
    norm_num
  have T := override_moves_fraction leftPseudoInverse defaultConfig identityTransform
    identityTransform identityTransform targetBehindTransform (initialState 2) s1 s2 out
    ((-495 / 100 : ℚ) • ![1, 0, 0]) h hv hov
  exact ⟨s1, s2, out, _, h, hv, hov, T.1, T.2.1⟩

end TurretController
